import Mathlib

/-!
Shallow embedding of `OpenMS::IdentificationData`
(`src/openms/source/METADATA/IdentificationData.cpp`).

Entity collections (boost multi-index containers keyed by a record-specific
identity) are modelled as association lists `List (Nat × α)` paired with a
fresh-handle counter; an iterator ("Ref") into a collection is modelled as the
`Nat` key of the record it points to.  `std::map` side tables are association
lists as well.  C++ `double` scores and coverages are modelled as `ℚ`.
A C++ function that throws returns `Except RegError _`; since a throw happens
after any in-place mutations already performed, every registration operation
returns the (possibly mutated) store together with the `Except` outcome.
-/

namespace IdData

/-- Membership test of a handle in a handle list (models `std::set::count`). -/
def memB (h : Nat) (l : List Nat) : Bool :=
  l.any (fun r => decide (r = h))

/-- Look up the record stored under a handle (models dereferencing a valid
iterator / `find`). -/
def lookupRec {α : Type} (l : List (Nat × α)) (h : Nat) : Option α :=
  (l.find? (fun p => decide (p.1 = h))).map Prod.snd

/-- Does the handle resolve to a record of the collection?  Models the
`isValidReference_` helper (declared in the header): a reference is valid
iff it points at a live element of the given container. -/
def hasKey {α : Type} (l : List (Nat × α)) (h : Nat) : Bool :=
  l.any (fun p => decide (p.1 = h))

/-- One entity collection: records in insertion order, each carrying its
handle, plus the next fresh handle. -/
structure Coll (α : Type) where
  items : List (Nat × α)
  next : Nat
deriving DecidableEq

/-- Modelled from the spec (§4.1, header code not in scope):
`insertOrFind(record)`: if a record with the same identity key already
exists, return its existing handle without mutating the collection;
otherwise append the record under a fresh handle.  The returned `Bool` is
the `inserted` component of the C++ `insert` result pair. -/
def Coll.insertOrFind {α κ : Type} [DecidableEq κ] (c : Coll α) (keyOf : α → κ)
    (a : α) : Nat × Coll α × Bool :=
  match c.items.find? (fun p => decide (keyOf p.2 = keyOf a)) with
  | some p => (p.1, c, false)
  | none => (c.next, ⟨c.items ++ [(c.next, a)], c.next + 1⟩, true)

/-- Keep only the records whose handle appears in `refs`
(models `removeFromSetIfMissing_`). -/
def Coll.keepKeys {α : Type} (c : Coll α) (refs : List Nat) : Coll α :=
  ⟨c.items.filter (fun p => memB p.1 refs), c.next⟩

/-- Keep only the records satisfying the predicate
(models `removeFromSetIf_` with the negated condition). -/
def Coll.filterRecs {α : Type} (c : Coll α) (p : Nat → α → Bool) : Coll α :=
  ⟨c.items.filter (fun x => p x.1 x.2), c.next⟩

/-- Rewrite every record in place (models `modify` applied along a full
iteration of the container). -/
def Coll.mapRecs {α : Type} (c : Coll α) (f : α → α) : Coll α :=
  ⟨c.items.map (fun x => (x.1, f x.2)), c.next⟩

/-- `std::map::insert`: inserts only when the key is not yet present. -/
def mapInsert {α : Type} (l : List (Nat × α)) (k : Nat) (v : α) :
    List (Nat × α) :=
  if hasKey l k then l else l ++ [(k, v)]

/-- Molecule type tag of `IdentificationData::MoleculeType`. -/
inductive MoleculeType where
  | PROTEIN
  | COMPOUND
  | RNA
deriving DecidableEq

/-- `IdentificationData::DataProcessingSoftware` (essential attributes). -/
structure Software where
  name : String
  version : String
deriving DecidableEq

/-- `IdentificationData::DBSearchParam`, treated as an opaque value record. -/
structure DBSearchParam where
  value : String
deriving DecidableEq

/-- `IdentificationData::DataProcessingStep`: a mandatory software reference
plus optional input-file references. -/
structure DataProcessingStep where
  software_ref : Nat
  input_file_refs : List Nat
deriving DecidableEq

/-- `IdentificationData::ScoreType`. -/
structure ScoreType where
  name : String
  higher_better : Bool
  software_opt : Option Nat
deriving DecidableEq

/-- `IdentificationData::DataQuery`. -/
structure DataQuery where
  data_id : String
  input_file_opt : Option Nat
deriving DecidableEq

/-- `IdentificationData::MoleculeParentMatch`: a positional match of an
identified molecule inside a parent molecule. -/
structure MoleculeParentMatch where
  start_pos : Nat
  end_pos : Nat
  left_neighbor : Char
  right_neighbor : Char
deriving DecidableEq

/-- `MoleculeParentMatch::UNKNOWN_POSITION = Size(-1)` on a 64-bit `Size`. -/
def MoleculeParentMatch.UNKNOWN_POSITION : Nat := 2 ^ 64 - 1

/-- `MoleculeParentMatch::UNKNOWN_NEIGHBOR`. -/
def MoleculeParentMatch.UNKNOWN_NEIGHBOR : Char := 'X'

/-- `MoleculeParentMatch::LEFT_TERMINUS`. -/
def MoleculeParentMatch.LEFT_TERMINUS : Char := '['

/-- `MoleculeParentMatch::RIGHT_TERMINUS`. -/
def MoleculeParentMatch.RIGHT_TERMINUS : Char := ']'

/-- Modelled from the spec (§4.4 step 2; `hasValidPositions` lives in the
header, which is not in scope): a match position pair is valid when it lies
inside `[0, parent_length)` (the parent bound is always checked, cf. the
source comment "always check this") and, when the molecule's own length was
computed (`molecule_length ≠ 0`), the fragment length `end - start + 1` is
consistent with it. -/
def MoleculeParentMatch.hasValidPositions (m : MoleculeParentMatch)
    (molecule_length parent_length : Nat) : Bool :=
  decide (m.start_pos ≤ m.end_pos) && decide (m.end_pos < parent_length) &&
    (decide (molecule_length = 0) ||
      decide (m.end_pos - m.start_pos + 1 = molecule_length))

/-- The `parent_matches` map of an identified peptide/oligo: parent-molecule
handle to positional matches, in iteration order. -/
abbrev ParentMatches : Type := List (Nat × List MoleculeParentMatch)

/-- `IdentificationData::IdentifiedPeptide`. -/
structure IdentifiedPeptide where
  sequence : String
  parent_matches : ParentMatches
deriving DecidableEq

/-- `IdentificationData::IdentifiedCompound`. -/
structure IdentifiedCompound where
  identifier : String
deriving DecidableEq

/-- `IdentificationData::IdentifiedOligo`. -/
structure IdentifiedOligo where
  sequence : String
  parent_matches : ParentMatches
deriving DecidableEq

/-- `IdentificationData::ParentMolecule`. -/
structure ParentMolecule where
  accession : String
  molecule_type : MoleculeType
  sequence : String
  coverage : ℚ
deriving DecidableEq

/-- `IdentificationData::ParentMoleculeGroup`: a set of parent-molecule
handles. -/
structure ParentMoleculeGroup where
  parent_molecule_refs : List Nat
deriving DecidableEq

/-- The tagged union `IdentificationData::IdentifiedMoleculeRef`
(a `boost::variant` over the three identified-molecule iterator types). -/
inductive IdentifiedMoleculeRef where
  | pep (h : Nat)
  | cmp (h : Nat)
  | oli (h : Nat)
deriving DecidableEq

/-- `IdentificationData::MoleculeQueryMatch`. -/
structure MoleculeQueryMatch where
  identified_molecule_ref : IdentifiedMoleculeRef
  data_query_ref : Nat
  scores : List (Nat × ℚ)
deriving DecidableEq

/-- `IdentificationData::QueryMatchGroup`: a set of query-match handles. -/
structure QueryMatchGroup where
  query_match_refs : List Nat
deriving DecidableEq

/-- `getMoleculeType()` of a query match: the tag of its variant reference. -/
def MoleculeQueryMatch.getMoleculeType (m : MoleculeQueryMatch) :
    MoleculeType :=
  match m.identified_molecule_ref with
  | .pep _ => MoleculeType.PROTEIN
  | .cmp _ => MoleculeType.COMPOUND
  | .oli _ => MoleculeType.RNA

/-- `ScoredProcessingResult::getScore(score_ref)`: the stored value for the
score type together with a flag telling whether one was found. -/
def MoleculeQueryMatch.getScore (m : MoleculeQueryMatch) (score_ref : Nat) :
    ℚ × Bool :=
  match m.scores.find? (fun p => decide (p.1 = score_ref)) with
  | some p => (p.2, true)
  | none => (0, false)

/-- The whole `IdentificationData` store: one collection per entity type,
the step-to-search-parameters side table and the current-processing-step
slot (`processing_steps_.end()` is modelled as `none`). -/
structure Store where
  input_files : Coll String
  processing_software : Coll Software
  db_search_params : Coll DBSearchParam
  processing_steps : Coll DataProcessingStep
  score_types : Coll ScoreType
  data_queries : Coll DataQuery
  identified_peptides : Coll IdentifiedPeptide
  identified_compounds : Coll IdentifiedCompound
  identified_oligos : Coll IdentifiedOligo
  parent_molecules : Coll ParentMolecule
  parent_molecule_groups : Coll ParentMoleculeGroup
  query_matches : Coll MoleculeQueryMatch
  query_match_groups : Coll QueryMatchGroup
  db_search_steps : List (Nat × Nat)
  current_step_ref : Option Nat
deriving DecidableEq

/-- The error taxonomy raised by registration (`Exception::IllegalArgument`
with the respective message). -/
inductive RegError where
  | invalidReference
  | missingRequiredField
  | conflictingOrientation
  | typeMismatch
deriving DecidableEq

/-- `registerInputFile`. -/
def registerInputFile (s : Store) (file : String) :
    Store × Except RegError Nat :=
  let r := s.input_files.insertOrFind (fun f => f) file
  ({ s with input_files := r.2.1 }, Except.ok r.1)

/-- `registerDataProcessingSoftware`. -/
def registerDataProcessingSoftware (s : Store) (software : Software) :
    Store × Except RegError Nat :=
  let r := s.processing_software.insertOrFind (fun x => x) software
  ({ s with processing_software := r.2.1 }, Except.ok r.1)

/-- `registerDBSearchParam`. -/
def registerDBSearchParam (s : Store) (param : DBSearchParam) :
    Store × Except RegError Nat :=
  let r := s.db_search_params.insertOrFind (fun x => x) param
  ({ s with db_search_params := r.2.1 }, Except.ok r.1)

/-- `registerDataProcessingStep` (both overloads: `search_ref = none` models
the call with `db_search_params_.end()`).  Note the source order: the step is
inserted into `processing_steps_` before the search-parameter reference is
validated, so that validation failure throws after the insertion. -/
def registerDataProcessingStep (s : Store) (step : DataProcessingStep)
    (search_ref : Option Nat) : Store × Except RegError Nat :=
  if ¬ hasKey s.processing_software.items step.software_ref then
    (s, Except.error RegError.invalidReference)
  else if step.input_file_refs.any (fun r => ! hasKey s.input_files.items r)
    then (s, Except.error RegError.invalidReference)
  else
    let r := s.processing_steps.insertOrFind (fun x => x) step
    let s1 := { s with processing_steps := r.2.1 }
    match search_ref with
    | none => (s1, Except.ok r.1)
    | some sr =>
      if ¬ hasKey s.db_search_params.items sr then
        (s1, Except.error RegError.invalidReference)
      else
        ({ s1 with db_search_steps := mapInsert s1.db_search_steps r.1 sr },
          Except.ok r.1)

/-- The insert step of `registerScoreType`: `insertOrFind` by name (the
identity of a score type is its name, modelled from the spec §3: one record
per name; the header's ordering is not in scope), followed by the
orientation-conflict check `!result.second && (score.higher_better !=
result.first->higher_better)` against the record the returned iterator
points to. -/
def scoreInsert (s : Store) (copy : ScoreType) (hb : Bool) :
    Store × Except RegError Nat :=
  match s.score_types.items.find? (fun p => decide (p.2.name = copy.name)) with
  | some p =>
    if p.2.higher_better ≠ hb then
      (s, Except.error RegError.conflictingOrientation)
    else
      (s, Except.ok p.1)
  | none =>
    ({ s with score_types :=
        ⟨s.score_types.items ++ [(s.score_types.next, copy)],
          s.score_types.next + 1⟩ },
      Except.ok s.score_types.next)

/-- `registerScoreType`.  If the score carries no software reference and a
current processing step is set, a copy inheriting that step's software is
registered instead; an explicitly set software reference must validate.
Registering a name that already exists with the opposite orientation
throws. -/
def registerScoreType (s : Store) (score : ScoreType) :
    Store × Except RegError Nat :=
  if score.software_opt = none ∧ s.current_step_ref ≠ none then
    let cur := s.current_step_ref.getD 0
    let sw := ((lookupRec s.processing_steps.items cur).map
      (fun st => st.software_ref)).getD 0
    scoreInsert s { score with software_opt := some sw } score.higher_better
  else
    if score.software_opt.any
        (fun sw => ! hasKey s.processing_software.items sw) then
      (s, Except.error RegError.invalidReference)
    else
      scoreInsert s score score.higher_better

/-- `registerDataQuery`. -/
def registerDataQuery (s : Store) (query : DataQuery) :
    Store × Except RegError Nat :=
  if query.data_id = "" then
    (s, Except.error RegError.missingRequiredField)
  else if query.input_file_opt.any
      (fun r => ! hasKey s.input_files.items r) then
    (s, Except.error RegError.invalidReference)
  else
    let r := s.data_queries.insertOrFind (fun x => x) query
    ({ s with data_queries := r.2.1 }, Except.ok r.1)

/-- `checkParentMatches_`: every referenced parent molecule must resolve and
carry the expected molecule type. -/
def checkParentMatches (s : Store) (ms : ParentMatches)
    (expected : MoleculeType) : Option RegError :=
  if ms.any (fun p => ! hasKey s.parent_molecules.items p.1) then
    some RegError.invalidReference
  else if ms.any (fun p =>
      decide (((lookupRec s.parent_molecules.items p.1).map
        (fun pm => pm.molecule_type)).getD expected ≠ expected)) then
    some RegError.typeMismatch
  else
    none

/-- `registerIdentifiedPeptide` (identity of a peptide is its sequence). -/
def registerIdentifiedPeptide (s : Store) (peptide : IdentifiedPeptide) :
    Store × Except RegError Nat :=
  if peptide.sequence = "" then
    (s, Except.error RegError.missingRequiredField)
  else
    match checkParentMatches s peptide.parent_matches MoleculeType.PROTEIN with
    | some e => (s, Except.error e)
    | none =>
      let r := s.identified_peptides.insertOrFind
        IdentifiedPeptide.sequence peptide
      ({ s with identified_peptides := r.2.1 }, Except.ok r.1)

/-- `registerIdentifiedCompound` (identity is the identifier). -/
def registerIdentifiedCompound (s : Store) (compound : IdentifiedCompound) :
    Store × Except RegError Nat :=
  if compound.identifier = "" then
    (s, Except.error RegError.missingRequiredField)
  else
    let r := s.identified_compounds.insertOrFind
      IdentifiedCompound.identifier compound
    ({ s with identified_compounds := r.2.1 }, Except.ok r.1)

/-- `registerIdentifiedOligo` (identity is the sequence). -/
def registerIdentifiedOligo (s : Store) (oligo : IdentifiedOligo) :
    Store × Except RegError Nat :=
  if oligo.sequence = "" then
    (s, Except.error RegError.missingRequiredField)
  else
    match checkParentMatches s oligo.parent_matches MoleculeType.RNA with
    | some e => (s, Except.error e)
    | none =>
      let r := s.identified_oligos.insertOrFind
        IdentifiedOligo.sequence oligo
      ({ s with identified_oligos := r.2.1 }, Except.ok r.1)

/-- `registerParentMolecule` (identity is the accession). -/
def registerParentMolecule (s : Store) (parent : ParentMolecule) :
    Store × Except RegError Nat :=
  if parent.accession = "" then
    (s, Except.error RegError.missingRequiredField)
  else
    let r := s.parent_molecules.insertOrFind
      ParentMolecule.accession parent
    ({ s with parent_molecules := r.2.1 }, Except.ok r.1)

/-- `registerParentMoleculeGroup`. -/
def registerParentMoleculeGroup (s : Store) (group : ParentMoleculeGroup) :
    Store × Except RegError Nat :=
  if group.parent_molecule_refs.any
      (fun r => ! hasKey s.parent_molecules.items r) then
    (s, Except.error RegError.invalidReference)
  else
    let r := s.parent_molecule_groups.insertOrFind
      ParentMoleculeGroup.parent_molecule_refs group
    ({ s with parent_molecule_groups := r.2.1 }, Except.ok r.1)

/-- Does the tagged identified-molecule reference resolve in the collection
selected by its tag? -/
def molResolves (s : Store) : IdentifiedMoleculeRef → Bool
  | .pep h => hasKey s.identified_peptides.items h
  | .cmp h => hasKey s.identified_compounds.items h
  | .oli h => hasKey s.identified_oligos.items h

/-- `registerMoleculeQueryMatch` (identity is the pair of the molecule
reference and the data-query reference). -/
def registerMoleculeQueryMatch (s : Store) (m : MoleculeQueryMatch) :
    Store × Except RegError Nat :=
  if ! molResolves s m.identified_molecule_ref then
    (s, Except.error RegError.invalidReference)
  else if ¬ hasKey s.data_queries.items m.data_query_ref then
    (s, Except.error RegError.invalidReference)
  else
    let r := s.query_matches.insertOrFind
      (fun x => (x.identified_molecule_ref, x.data_query_ref)) m
    ({ s with query_matches := r.2.1 }, Except.ok r.1)

/-- `registerQueryMatchGroup`. -/
def registerQueryMatchGroup (s : Store) (group : QueryMatchGroup) :
    Store × Except RegError Nat :=
  if group.query_match_refs.any
      (fun r => ! hasKey s.query_matches.items r) then
    (s, Except.error RegError.invalidReference)
  else
    let r := s.query_match_groups.insertOrFind
      QueryMatchGroup.query_match_refs group
    ({ s with query_match_groups := r.2.1 }, Except.ok r.1)

/-- `addScore`: validate the score-type handle, then overwrite the value for
that score type in the match's score list. -/
def addScore (s : Store) (match_ref score_ref : Nat) (value : ℚ) :
    Store × Except RegError Unit :=
  if ¬ hasKey s.score_types.items score_ref then
    (s, Except.error RegError.invalidReference)
  else
    let f := fun (m : MoleculeQueryMatch) =>
      { m with scores :=
          (m.scores.filter (fun p => ! decide (p.1 = score_ref))) ++
            [(score_ref, value)] }
    ({ s with query_matches :=
        ⟨s.query_matches.items.map
          (fun x => if x.1 = match_ref then (x.1, f x.2) else x),
          s.query_matches.next⟩ }, Except.ok ())

/-- `setCurrentProcessingStep`. -/
def setCurrentProcessingStep (s : Store) (step_ref : Nat) :
    Store × Except RegError Unit :=
  if ¬ hasKey s.processing_steps.items step_ref then
    (s, Except.error RegError.invalidReference)
  else
    ({ s with current_step_ref := some step_ref }, Except.ok ())

/-- `clearCurrentProcessingStep`: reset the slot to the `end()` sentinel. -/
def clearCurrentProcessingStep (s : Store) : Store :=
  { s with current_step_ref := none }

/-- Modelled from the spec (§6, the score-comparison collaborator declared in
the header): `isBetterScore(candidate, current, higher_better)` — strictly
greater when `higher_better`, strictly less otherwise. -/
def isBetterScore (candidate current : ℚ) (higher_better : Bool) : Bool :=
  if higher_better then decide (current < candidate)
  else decide (candidate < current)

/-- The loop of `getBestMatchPerQuery`: walk the match list carrying the
best-so-far `(score, found)` pair and match iterator (`none` = `end()`);
on a query change emit the previous best when it had a score, and after the
walk emit the final best likewise. -/
def bestLoop (hb : Bool) (sref : Nat) :
    List (Nat × MoleculeQueryMatch) → ℚ × Bool →
      Option (Nat × MoleculeQueryMatch) → List Nat
  | [], bs, br =>
    if bs.2 then
      match br with
      | some b => [b.1]
      | none => []
    else []
  | r :: rest, bs, br =>
    let cs := r.2.getScore sref
    match br with
    | some b =>
      if r.2.data_query_ref ≠ b.2.data_query_ref then
        (if bs.2 then [b.1] else []) ++ bestLoop hb sref rest cs (some r)
      else if cs.2 && (!bs.2 || isBetterScore cs.1 bs.1 hb) then
        bestLoop hb sref rest cs (some r)
      else
        bestLoop hb sref rest bs (some b)
    | none =>
      if cs.2 && (!bs.2 || isBetterScore cs.1 bs.1 hb) then
        bestLoop hb sref rest cs (some r)
      else
        bestLoop hb sref rest bs none

/-- `getBestMatchPerQuery(score_ref)`: single linear pass over the
query-match collection in iteration order. -/
def getBestMatchPerQuery (s : Store) (score_ref : Nat) : List Nat :=
  let hb := ((lookupRec s.score_types.items score_ref).map
    (fun t => t.higher_better)).getD false
  bestLoop hb score_ref s.query_matches.items (0, false) none

/-- Per-parent aggregation state of `calculateCoverages`: resolved sequence
length and the collected valid fragments (`ParentData` without the coverage
field, which is computed afterwards). -/
abbrev ParentInfo : Type := List (Nat × Nat × List (Nat × Nat))

/-- Sequence length of the parent a handle points to, through the external
sequence-length collaborator (`AASequence::fromString(...).size()` resp.
`NASequence::fromString(...).size()`, abstracted as `lenF`).  A handle that
does not resolve yields length 0. -/
def parentLength (parents : Coll ParentMolecule) (lenF : String → Nat)
    (pref : Nat) : Nat :=
  ((lookupRec parents.items pref).map (fun p => lenF p.sequence)).getD 0

/-- Append the valid matches of one `parent_matches` entry to the fragment
list recorded for that parent. -/
def addFragments (info : ParentInfo) (pref : Nat) (molecule_length : Nat)
    (ms : List MoleculeParentMatch) : ParentInfo :=
  info.map (fun e =>
    if e.1 = pref then
      (e.1, e.2.1, e.2.2 ++ (ms.filter
        (fun m => m.hasValidPositions molecule_length e.2.1)).map
          (fun m => (m.start_pos, m.end_pos)))
    else e)

/-- The inner loop of `calculateCoverages` over one molecule's
`parent_matches`: on first encounter of a parent resolve its length and
`break` out of the whole loop when it is 0 (sequence not available),
otherwise record the entry and accumulate the valid matches. -/
def processMatches (parents : Coll ParentMolecule) (lenF : String → Nat)
    (molecule_length : Nat) :
    List (Nat × List MoleculeParentMatch) → ParentInfo → ParentInfo
  | [], info => info
  | (pref, ms) :: rest, info =>
    if hasKey info pref then
      processMatches parents lenF molecule_length rest
        (addFragments info pref molecule_length ms)
    else
      let len := parentLength parents lenF pref
      if len = 0 then info
      else
        processMatches parents lenF molecule_length rest
          (addFragments (info ++ [(pref, len, [])]) pref molecule_length ms)

/-- The scan of `calculateCoverages` over all peptides then all oligos. -/
def collectParentInfo (s : Store) (lenAA lenNA : String → Nat)
    (check_molecule_length : Bool) : ParentInfo :=
  let afterPep := s.identified_peptides.items.foldl
    (fun info x =>
      processMatches s.parent_molecules lenAA
        (if check_molecule_length then x.2.sequence.length else 0)
        x.2.parent_matches info)
    []
  s.identified_oligos.items.foldl
    (fun info x =>
      processMatches s.parent_molecules lenNA
        (if check_molecule_length then x.2.sequence.length else 0)
        x.2.parent_matches info)
    afterPep

/-- `std::fill(covered.begin() + a, covered.begin() + b + 1, true)` on the
boolean position array. -/
def fillRange (arr : List Bool) (a b : Nat) : List Bool :=
  (List.range arr.length).map
    (fun i => if a ≤ i ∧ i ≤ b then true else arr.getD i false)

/-- The covered-position array of one parent: positions `0 .. len - 1`,
each fragment filling its inclusive range. -/
def coveredArray (len : Nat) (frags : List (Nat × Nat)) : List Bool :=
  frags.foldl (fun arr f => fillRange arr f.1 f.2) (List.replicate len false)

/-- `accumulate(covered) / double(length)`: the coverage fraction of one
parent from its collected fragments. -/
def coverageOf (len : Nat) (frags : List (Nat × Nat)) : ℚ :=
  ((coveredArray len frags).count true : ℚ) / (len : ℚ)

/-- `calculateCoverages(check_molecule_length)`: aggregate fragments per
parent, then overwrite every parent molecule's `coverage` field (0.0 for a
parent without an aggregation entry).  The two sequence-length collaborators
are passed in as functions (spec §6). -/
def calculateCoverages (lenAA lenNA : String → Nat) (s : Store)
    (check_molecule_length : Bool) : Store :=
  let info := collectParentInfo s lenAA lenNA check_molecule_length
  { s with parent_molecules :=
      ⟨s.parent_molecules.items.map (fun x =>
        match info.find? (fun e => decide (e.1 = x.1)) with
        | some e => (x.1, { x.2 with coverage := coverageOf e.2.1 e.2.2 })
        | none => (x.1, { x.2 with coverage := 0 })),
        s.parent_molecules.next⟩ }

/-- Cleanup pass 1 (`require_parent_group`): keep only parent molecules
referenced by some parent-molecule group. -/
def pruneParentsByGroups (s : Store) : Store :=
  let refs := s.parent_molecule_groups.items.flatMap
    (fun g => g.2.parent_molecule_refs)
  { s with parent_molecules := s.parent_molecules.keepKeys refs }

/-- Cleanup pass 2 (unconditional): strip dangling parent-molecule handles
from every peptide's and oligo's `parent_matches`
(`ModifyMultiIndexRemoveParentMatches`). -/
def removeDanglingParentMatches (s : Store) : Store :=
  { s with
    identified_peptides := s.identified_peptides.mapRecs (fun r =>
      { r with parent_matches := r.parent_matches.filter (fun x => hasKey s.parent_molecules.items x.1) }),
    identified_oligos := s.identified_oligos.mapRecs (fun r =>
      { r with parent_matches := r.parent_matches.filter (fun x => hasKey s.parent_molecules.items x.1) }) }

/-- Cleanup pass 3 (`require_parent_match`): delete peptides/oligos whose
`parent_matches` became empty. -/
def removeEmptyParentMatchMolecules (s : Store) : Store :=
  { s with
    identified_peptides := s.identified_peptides.filterRecs
      (fun _ r => ! r.parent_matches.isEmpty),
    identified_oligos := s.identified_oligos.filterRecs
      (fun _ r => ! r.parent_matches.isEmpty) }

/-- Cleanup pass 4 (unconditional): delete query matches whose tagged
identified-molecule reference no longer resolves. -/
def removeDanglingQueryMatches (s : Store) : Store :=
  { s with query_matches := s.query_matches.filterRecs (fun _ m => molResolves s m.identified_molecule_ref) }

/-- Cleanup pass 5 (`require_match_group`): keep only query matches
referenced by some query-match group. -/
def pruneMatchesByGroups (s : Store) : Store :=
  let refs := s.query_match_groups.items.flatMap (fun g => g.2.query_match_refs)
  { s with query_matches := s.query_matches.keepKeys refs }

/-- Cleanup pass 6 (`require_query_match`): keep only the data queries and
identified molecules referenced by some surviving query match (split by the
molecule-type tag). -/
def pruneByQueryMatches (s : Store) : Store :=
  let qrefs := s.query_matches.items.map (fun m => m.2.data_query_ref)
  let prefs := s.query_matches.items.filterMap (fun m =>
    match m.2.identified_molecule_ref with
    | .pep h => some h
    | _ => none)
  let crefs := s.query_matches.items.filterMap (fun m =>
    match m.2.identified_molecule_ref with
    | .cmp h => some h
    | _ => none)
  let orefs := s.query_matches.items.filterMap (fun m =>
    match m.2.identified_molecule_ref with
    | .oli h => some h
    | _ => none)
  { s with
    data_queries := s.data_queries.keepKeys qrefs,
    identified_peptides := s.identified_peptides.keepKeys prefs,
    identified_compounds := s.identified_compounds.keepKeys crefs,
    identified_oligos := s.identified_oligos.keepKeys orefs }

/-- Cleanup pass 7 (`require_identified_sequence`): keep only parent
molecules referenced by some surviving peptide's or oligo's
`parent_matches`. -/
def pruneParentsByIdentified (s : Store) : Store :=
  let refs := s.identified_peptides.items.flatMap
      (fun x => x.2.parent_matches.map Prod.fst) ++
    s.identified_oligos.items.flatMap
      (fun x => x.2.parent_matches.map Prod.fst)
  { s with parent_molecules := s.parent_molecules.keepKeys refs }

/-- The group-pruning loop shared by cleanup passes 8 and 9: strip members
that no longer resolve, erase a group that became empty, and flag a warning
when a surviving group shrank. -/
def pruneGroupItems (keep : Nat → Bool) (items : List (Nat × List Nat)) :
    List (Nat × List Nat) × Bool :=
  items.foldr
    (fun g acc =>
      let pruned := g.2.filter keep
      if pruned.isEmpty then acc
      else ((g.1, pruned) :: acc.1,
        acc.2 || decide (pruned.length ≠ g.2.length)))
    ([], false)

/-- Cleanup pass 8 (unconditional): prune every parent-molecule group against
the surviving parent molecules; returns the warning flag. -/
def pruneParentGroups (s : Store) : Store × Bool :=
  let r := pruneGroupItems (fun h => hasKey s.parent_molecules.items h)
    (s.parent_molecule_groups.items.map
      (fun g => (g.1, g.2.parent_molecule_refs)))
  ({ s with parent_molecule_groups :=
      ⟨r.1.map (fun g => (g.1, ⟨g.2⟩)), s.parent_molecule_groups.next⟩ },
    r.2)

/-- Cleanup pass 9 (unconditional): prune every query-match group against the
surviving query matches; returns the warning flag. -/
def pruneQueryMatchGroups (s : Store) : Store × Bool :=
  let r := pruneGroupItems (fun h => hasKey s.query_matches.items h)
    (s.query_match_groups.items.map (fun g => (g.1, g.2.query_match_refs)))
  ({ s with query_match_groups :=
      ⟨r.1.map (fun g => (g.1, ⟨g.2⟩)), s.query_match_groups.next⟩ },
    r.2)

/-- Cleanup passes 1-7, in source order. -/
def cleanupMain (s : Store) (require_query_match require_identified_sequence
    require_parent_match require_parent_group require_match_group : Bool) :
    Store :=
  let s1 := if require_parent_group then pruneParentsByGroups s else s
  let s2 := removeDanglingParentMatches s1
  let s3 := if require_parent_match then removeEmptyParentMatchMolecules s2
    else s2
  let s4 := removeDanglingQueryMatches s3
  let s5 := if require_match_group then pruneMatchesByGroups s4 else s4
  let s6 := if require_query_match then pruneByQueryMatches s5 else s5
  if require_identified_sequence then pruneParentsByIdentified s6 else s6

/-- `cleanup(...)`: the five-flag cascading prune; also returns the two
warning flags (parent-molecule groups, query-match groups) emitted by the
group-pruning passes. -/
def cleanup (s : Store) (require_query_match require_identified_sequence
    require_parent_match require_parent_group require_match_group : Bool) :
    Store × Bool × Bool :=
  let s7 := cleanupMain s require_query_match require_identified_sequence
    require_parent_match require_parent_group require_match_group
  let r8 := pruneParentGroups s7
  let r9 := pruneQueryMatchGroups r8.1
  (r9.1, r8.2, r9.2)

/-- The store with all collections empty (the state of a freshly constructed
`IdentificationData` object). -/
def emptyStore : Store :=
  ⟨⟨[], 0⟩, ⟨[], 0⟩, ⟨[], 0⟩, ⟨[], 0⟩, ⟨[], 0⟩, ⟨[], 0⟩, ⟨[], 0⟩, ⟨[], 0⟩,
    ⟨[], 0⟩, ⟨[], 0⟩, ⟨[], 0⟩, ⟨[], 0⟩, ⟨[], 0⟩, [], none⟩

theorem memB_iff (h : Nat) (l : List Nat) : memB h l = true ↔ h ∈ l := by
  simp only [memB, List.any_eq_true, decide_eq_true_eq]
  constructor
  · rintro ⟨r, hr, he⟩
    rwa [he] at hr
  · intro hm
    exact ⟨h, hm, rfl⟩

theorem hasKey_iff {α : Type} (l : List (Nat × α)) (h : Nat) :
    hasKey l h = true ↔ ∃ a, (h, a) ∈ l := by
  constructor
  · intro hk
    simp only [hasKey, List.any_eq_true, decide_eq_true_eq] at hk
    obtain ⟨p, hp, he⟩ := hk
    exact ⟨p.2, by rwa [← he]⟩
  · rintro ⟨a, ha⟩
    simp only [hasKey, List.any_eq_true, decide_eq_true_eq]
    exact ⟨(h, a), ha, rfl⟩

theorem hasKey_sub {α β : Type} {l : List (Nat × α)} {l' : List (Nat × β)}
    (hsub : ∀ h, hasKey l h = true → hasKey l' h = true) {h : Nat}
    (hk : hasKey l h = true) : hasKey l' h = true :=
  hsub h hk

theorem insertOrFind_self {α κ : Type} [DecidableEq κ] (c : Coll α)
    (keyOf : α → κ) (a : α) :
    (c.insertOrFind keyOf a).2.1.insertOrFind keyOf a =
      ((c.insertOrFind keyOf a).1, (c.insertOrFind keyOf a).2.1, false) := by
  unfold Coll.insertOrFind
  rcases hf : c.items.find? (fun p => decide (keyOf p.2 = keyOf a)) with _ | p
  · simp only [List.find?_append, hf, Option.none_or]
    simp
  · simp [hf]

theorem mapInsert_self {α : Type} (l : List (Nat × α)) (k : Nat) (v v' : α) :
    mapInsert (mapInsert l k v) k v' = mapInsert l k v := by
  unfold mapInsert
  by_cases hk : hasKey l k = true
  · simp [hk]
  · simp only [hk]
    have : hasKey (l ++ [(k, v)]) k = true := by
      rw [hasKey_iff]
      exact ⟨v, by simp⟩
    simp [Bool.not_eq_true] at hk
    simp [hk, this]

/-- C1 (code bug witness): `registerDataProcessingStep` inserts the step into
`processing_steps_` before validating the search-parameter reference, so
with a registered software (handle 0) and an unregistered search-parameter
handle 99 the call throws `invalid reference to database search parameters`
yet leaves the newly inserted step in the collection — contradicting the
documented contract that a failing registration does not mutate state. -/
theorem registerDataProcessingStep_partialCommit :
    (registerDataProcessingStep
      { emptyStore with processing_software := ⟨[(0, ⟨"sw", "1"⟩)], 1⟩ }
      ⟨0, []⟩ (some 99)).2 = Except.error RegError.invalidReference ∧
    (registerDataProcessingStep
      { emptyStore with processing_software := ⟨[(0, ⟨"sw", "1"⟩)], 1⟩ }
      ⟨0, []⟩ (some 99)).1.processing_steps.items = [(0, ⟨0, []⟩)] ∧
    ({ emptyStore with processing_software := ⟨[(0, ⟨"sw", "1"⟩)], 1⟩ }
      : Store).processing_steps.items = [] := by
  refine ⟨?_, ?_, rfl⟩ <;> rfl

/-- C6: registering a score-type name that already exists with the opposite
`higher_better` orientation raises the conflicting-orientation error and
leaves the store unchanged; registering it again with the same orientation
returns the existing handle and leaves the store unchanged; and
`registerScoreType` preserves the at-most-one-record-per-name invariant
(hence each name carries at most one orientation across the store).  The
software reference, when explicitly set, is assumed to validate. -/
theorem registerScoreType_orientation :
    (∀ (s : Store) (score : ScoreType) (p : Nat × ScoreType),
      (∀ sw ∈ score.software_opt, hasKey s.processing_software.items sw = true) →
      s.score_types.items.find? (fun q => decide (q.2.name = score.name)) =
        some p →
      p.2.higher_better ≠ score.higher_better →
      registerScoreType s score =
        (s, Except.error RegError.conflictingOrientation)) ∧
    (∀ (s : Store) (score : ScoreType) (p : Nat × ScoreType),
      (∀ sw ∈ score.software_opt, hasKey s.processing_software.items sw = true) →
      s.score_types.items.find? (fun q => decide (q.2.name = score.name)) =
        some p →
      p.2.higher_better = score.higher_better →
      registerScoreType s score = (s, Except.ok p.1)) ∧
    (∀ (s : Store) (score : ScoreType),
      s.score_types.items.Pairwise (fun a b => a.2.name ≠ b.2.name) →
      (registerScoreType s score).1.score_types.items.Pairwise
        (fun a b => a.2.name ≠ b.2.name)) := by
  have hsw : ∀ (s : Store) (score : ScoreType),
      (∀ sw ∈ score.software_opt, hasKey s.processing_software.items sw = true) →
      score.software_opt.any
        (fun sw => ! hasKey s.processing_software.items sw) = false := by
    intro s score hval
    rcases hopt : score.software_opt with _ | sw
    · rfl
    · simp [hval sw hopt]
  refine ⟨?_, ?_, ?_⟩
  · intro s score p hval hfind hne
    unfold registerScoreType scoreInsert
    split
    · simp only [hfind]
      simp [hne]
    · rw [hsw s score hval]
      simp only [Bool.false_eq_true, if_false, hfind]
      simp [hne]
  · intro s score p hval hfind heq
    unfold registerScoreType scoreInsert
    split
    · simp only [hfind]
      simp [heq]
    · rw [hsw s score hval]
      simp only [Bool.false_eq_true, if_false, hfind]
      simp [heq]
  · intro s score hpw
    unfold registerScoreType scoreInsert
    split
    · rcases hfind : s.score_types.items.find?
        (fun q => decide (q.2.name = score.name)) with _ | p
      · simp only [hfind]
        refine List.pairwise_append.mpr ⟨hpw, List.pairwise_singleton _ _, ?_⟩
        intro a ha b hb
        rw [List.find?_eq_none] at hfind
        have := hfind a ha
        simp only [decide_eq_true_eq] at this
        simp only [List.mem_singleton] at hb
        subst hb
        exact this
      · simp only [hfind]
        split <;> exact hpw
    · split
      · exact hpw
      · rcases hfind : s.score_types.items.find?
          (fun q => decide (q.2.name = score.name)) with _ | p
        · simp only [hfind]
          refine List.pairwise_append.mpr ⟨hpw, List.pairwise_singleton _ _, ?_⟩
          intro a ha b hb
          rw [List.find?_eq_none] at hfind
          have := hfind a ha
          simp only [decide_eq_true_eq] at this
          simp only [List.mem_singleton] at hb
          subst hb
          exact this
        · simp only [hfind]
          split <;> exact hpw

theorem scoreInsert_ok {s s' : Store} {c : ScoreType} {hb : Bool} {r : Nat}
    (hcb : c.higher_better = hb)
    (h : scoreInsert s c hb = (s', Except.ok r)) :
    scoreInsert s' c hb = (s', Except.ok r) ∧
    s'.current_step_ref = s.current_step_ref ∧
    s'.processing_steps = s.processing_steps ∧
    s'.processing_software = s.processing_software := by
  unfold scoreInsert at h ⊢
  rcases hf : s.score_types.items.find? (fun p => decide (p.2.name = c.name))
    with _ | p
  · rw [hf] at h
    dsimp only at h
    rw [Prod.mk.injEq] at h
    obtain ⟨h1, h2⟩ := h
    rw [Except.ok.injEq] at h2
    subst h1
    subst h2
    refine ⟨?_, rfl, rfl, rfl⟩
    simp only [List.find?_append, hf, Option.none_or]
    simp [hcb]
  · rw [hf] at h
    dsimp only at h
    split_ifs at h with hne
    · exact absurd (congrArg Prod.snd h) (by simp)
    · rw [Prod.mk.injEq] at h
      obtain ⟨h1, h2⟩ := h
      rw [Except.ok.injEq] at h2
      subst h1
      subst h2
      refine ⟨?_, rfl, rfl, rfl⟩
      rw [hf]
      dsimp only
      rw [if_neg hne]

/-- C7: every registration operation is an idempotent insert: if a call
succeeds, returning handle `r` and post-state `s'`, then repeating the call
with equal arguments on `s'` succeeds with the same handle `r` and leaves
the state exactly `s'` (same collection contents, hence same size). -/
theorem register_idempotent :
    ∀ (s s' : Store) (r : Nat),
    (∀ f, registerInputFile s f = (s', Except.ok r) →
      registerInputFile s' f = (s', Except.ok r)) ∧
    (∀ sw, registerDataProcessingSoftware s sw = (s', Except.ok r) →
      registerDataProcessingSoftware s' sw = (s', Except.ok r)) ∧
    (∀ p, registerDBSearchParam s p = (s', Except.ok r) →
      registerDBSearchParam s' p = (s', Except.ok r)) ∧
    (∀ step oref, registerDataProcessingStep s step oref = (s', Except.ok r) →
      registerDataProcessingStep s' step oref = (s', Except.ok r)) ∧
    (∀ sc, registerScoreType s sc = (s', Except.ok r) →
      registerScoreType s' sc = (s', Except.ok r)) ∧
    (∀ q, registerDataQuery s q = (s', Except.ok r) →
      registerDataQuery s' q = (s', Except.ok r)) ∧
    (∀ pep, registerIdentifiedPeptide s pep = (s', Except.ok r) →
      registerIdentifiedPeptide s' pep = (s', Except.ok r)) ∧
    (∀ c, registerIdentifiedCompound s c = (s', Except.ok r) →
      registerIdentifiedCompound s' c = (s', Except.ok r)) ∧
    (∀ o, registerIdentifiedOligo s o = (s', Except.ok r) →
      registerIdentifiedOligo s' o = (s', Except.ok r)) ∧
    (∀ pm, registerParentMolecule s pm = (s', Except.ok r) →
      registerParentMolecule s' pm = (s', Except.ok r)) ∧
    (∀ g, registerParentMoleculeGroup s g = (s', Except.ok r) →
      registerParentMoleculeGroup s' g = (s', Except.ok r)) ∧
    (∀ m, registerMoleculeQueryMatch s m = (s', Except.ok r) →
      registerMoleculeQueryMatch s' m = (s', Except.ok r)) ∧
    (∀ g, registerQueryMatchGroup s g = (s', Except.ok r) →
      registerQueryMatchGroup s' g = (s', Except.ok r)) := by
  intro s s' r
  refine ⟨?_, ?_, ?_, ?_, ?_, ?_, ?_, ?_, ?_, ?_, ?_, ?_, ?_⟩
  · intro f h
    simp only [registerInputFile] at h ⊢
    rw [Prod.mk.injEq] at h
    obtain ⟨h1, h2⟩ := h
    rw [Except.ok.injEq] at h2
    subst h1
    subst h2
    simp [insertOrFind_self]
  · intro sw h
    simp only [registerDataProcessingSoftware] at h ⊢
    rw [Prod.mk.injEq] at h
    obtain ⟨h1, h2⟩ := h
    rw [Except.ok.injEq] at h2
    subst h1
    subst h2
    simp [insertOrFind_self]
  · intro p h
    simp only [registerDBSearchParam] at h ⊢
    rw [Prod.mk.injEq] at h
    obtain ⟨h1, h2⟩ := h
    rw [Except.ok.injEq] at h2
    subst h1
    subst h2
    simp [insertOrFind_self]
  · intro step oref h
    rcases oref with _ | sr
    all_goals
      simp only [registerDataProcessingStep] at h ⊢
      split_ifs at h
      all_goals rw [Prod.mk.injEq] at h
      all_goals first
        | exact absurd h.2 (fun hh => Except.noConfusion hh)
        | (obtain ⟨h1, h2⟩ := h
           rw [Except.ok.injEq] at h2
           subst h1
           subst h2
           split_ifs <;> simp_all [insertOrFind_self, mapInsert_self])
  · intro sc h
    simp only [registerScoreType] at h ⊢
    split_ifs at h with hc1 hc2
    · obtain ⟨hi, hcur, hsteps, hsw⟩ := scoreInsert_ok rfl h
      rw [if_pos (⟨hc1.1, by rw [hcur]; exact hc1.2⟩ :
        sc.software_opt = none ∧ s'.current_step_ref ≠ none)]
      rw [hcur, hsteps]
      exact hi
    · exact absurd (congrArg Prod.snd h) (by simp)
    · obtain ⟨hi, hcur, hsteps, hsw⟩ := scoreInsert_ok rfl h
      rw [if_neg (by rw [hcur]; exact hc1)]
      rw [hsw]
      rw [if_neg hc2]
      exact hi
  · intro q h
    simp only [registerDataQuery] at h ⊢
    split_ifs at h
    all_goals rw [Prod.mk.injEq] at h
    all_goals first
      | exact absurd h.2 (fun hh => Except.noConfusion hh)
      | (obtain ⟨h1, h2⟩ := h
         rw [Except.ok.injEq] at h2
         subst h1
         subst h2
         split_ifs <;> simp_all [insertOrFind_self])
  · intro pep h
    unfold registerIdentifiedPeptide at h ⊢
    split_ifs at h with hc1
    · exact absurd (congrArg Prod.snd h) (by simp)
    · rcases hchk : checkParentMatches s pep.parent_matches MoleculeType.PROTEIN
        with _ | e
      · rw [hchk] at h
        rw [Prod.mk.injEq] at h
        obtain ⟨h1, h2⟩ := h
        rw [Except.ok.injEq] at h2
        subst h1
        subst h2
        rw [if_neg hc1]
        have hchk2 : checkParentMatches
            { s with identified_peptides :=
                (s.identified_peptides.insertOrFind
                  IdentifiedPeptide.sequence pep).2.1 }
            pep.parent_matches MoleculeType.PROTEIN = none := hchk
        rw [hchk2]
        simp [insertOrFind_self]
      · rw [hchk] at h
        exact absurd (congrArg Prod.snd h) (by simp)
  · intro c h
    simp only [registerIdentifiedCompound] at h ⊢
    split_ifs at h
    all_goals rw [Prod.mk.injEq] at h
    all_goals first
      | exact absurd h.2 (fun hh => Except.noConfusion hh)
      | (obtain ⟨h1, h2⟩ := h
         rw [Except.ok.injEq] at h2
         subst h1
         subst h2
         split_ifs <;> simp_all [insertOrFind_self])
  · intro o h
    unfold registerIdentifiedOligo at h ⊢
    split_ifs at h with hc1
    · exact absurd (congrArg Prod.snd h) (by simp)
    · rcases hchk : checkParentMatches s o.parent_matches MoleculeType.RNA
        with _ | e
      · rw [hchk] at h
        rw [Prod.mk.injEq] at h
        obtain ⟨h1, h2⟩ := h
        rw [Except.ok.injEq] at h2
        subst h1
        subst h2
        rw [if_neg hc1]
        have hchk2 : checkParentMatches
            { s with identified_oligos :=
                (s.identified_oligos.insertOrFind
                  IdentifiedOligo.sequence o).2.1 }
            o.parent_matches MoleculeType.RNA = none := hchk
        rw [hchk2]
        simp [insertOrFind_self]
      · rw [hchk] at h
        exact absurd (congrArg Prod.snd h) (by simp)
  · intro pm h
    simp only [registerParentMolecule] at h ⊢
    split_ifs at h
    all_goals rw [Prod.mk.injEq] at h
    all_goals first
      | exact absurd h.2 (fun hh => Except.noConfusion hh)
      | (obtain ⟨h1, h2⟩ := h
         rw [Except.ok.injEq] at h2
         subst h1
         subst h2
         split_ifs <;> simp_all [insertOrFind_self])
  · intro g h
    simp only [registerParentMoleculeGroup] at h ⊢
    split_ifs at h
    all_goals rw [Prod.mk.injEq] at h
    all_goals first
      | exact absurd h.2 (fun hh => Except.noConfusion hh)
      | (obtain ⟨h1, h2⟩ := h
         rw [Except.ok.injEq] at h2
         subst h1
         subst h2
         split_ifs <;> simp_all [insertOrFind_self])
  · intro m h
    simp only [registerMoleculeQueryMatch] at h ⊢
    split_ifs at h
    all_goals rw [Prod.mk.injEq] at h
    all_goals first
      | exact absurd h.2 (fun hh => Except.noConfusion hh)
      | (obtain ⟨h1, h2⟩ := h
         rw [Except.ok.injEq] at h2
         subst h1
         subst h2
         split_ifs <;> simp_all [insertOrFind_self, molResolves])
  · intro g h
    simp only [registerQueryMatchGroup] at h ⊢
    split_ifs at h
    all_goals rw [Prod.mk.injEq] at h
    all_goals first
      | exact absurd h.2 (fun hh => Except.noConfusion hh)
      | (obtain ⟨h1, h2⟩ := h
         rw [Except.ok.injEq] at h2
         subst h1
         subst h2
         split_ifs <;> simp_all [insertOrFind_self])

/-- Witness for C7: registering the same input file twice on the empty store
returns handle 0 both times and leaves the store of the first call
unchanged. -/
theorem register_idempotent_witness :
    registerInputFile (registerInputFile emptyStore "data.mzML").1
      "data.mzML" =
      ((registerInputFile emptyStore "data.mzML").1, Except.ok 0) :=
  (register_idempotent emptyStore
    (registerInputFile emptyStore "data.mzML").1 0).1 "data.mzML" rfl

/-- Witness for C6 at the spec's example: with `("score_a", true)` already
registered under handle 0, registering `("score_a", false)` raises the
conflict error without mutating the store, and registering
`("score_a", true)` again returns handle 0 without mutating the store. -/
theorem registerScoreType_orientation_witness :
    registerScoreType
      { emptyStore with score_types := ⟨[(0, ⟨"score_a", true, none⟩)], 1⟩ }
      ⟨"score_a", false, none⟩ =
      ({ emptyStore with
          score_types := ⟨[(0, ⟨"score_a", true, none⟩)], 1⟩ },
        Except.error RegError.conflictingOrientation) ∧
    registerScoreType
      { emptyStore with score_types := ⟨[(0, ⟨"score_a", true, none⟩)], 1⟩ }
      ⟨"score_a", true, none⟩ =
      ({ emptyStore with
          score_types := ⟨[(0, ⟨"score_a", true, none⟩)], 1⟩ },
        Except.ok 0) :=
  ⟨registerScoreType_orientation.1 _ _ (0, ⟨"score_a", true, none⟩)
      (by intro sw hsw; cases hsw) rfl (by decide),
    registerScoreType_orientation.2.1 _ _ (0, ⟨"score_a", true, none⟩)
      (by intro sw hsw; cases hsw) rfl rfl⟩

theorem fillRange_map_range (len : Nat) (g : Nat → Bool) (a b : Nat) :
    fillRange ((List.range len).map g) a b =
      (List.range len).map
        (fun i => if a ≤ i ∧ i ≤ b then true else g i) := by
  unfold fillRange
  rw [List.length_map, List.length_range]
  refine List.map_congr_left ?_
  intro i hi
  rw [List.mem_range] at hi
  rw [List.getD_eq_getElem?_getD, List.getElem?_map, List.getElem?_range hi]
  rfl

theorem foldl_fillRange (len : Nat) (frags : List (Nat × Nat)) :
    ∀ g : Nat → Bool,
    frags.foldl (fun arr f => fillRange arr f.1 f.2) ((List.range len).map g) =
      (List.range len).map (fun i =>
        g i || frags.any (fun f => decide (f.1 ≤ i) && decide (i ≤ f.2))) := by
  induction frags with
  | nil =>
    intro g
    rw [List.foldl_nil]
    refine List.map_congr_left ?_
    intro i _
    simp
  | cons f frags ih =>
    intro g
    rw [List.foldl_cons, fillRange_map_range, ih]
    refine List.map_congr_left ?_
    intro i _
    by_cases hc : f.1 ≤ i ∧ i ≤ f.2
    · simp [hc, hc.1, hc.2]
    · rw [if_neg hc]
      by_cases h1 : f.1 ≤ i
      · by_cases h2 : i ≤ f.2
        · exact absurd ⟨h1, h2⟩ hc
        · simp [h1, h2, Bool.or_assoc]
      · simp [h1, Bool.or_assoc]

theorem coveredArray_eq_map_range (len : Nat) (frags : List (Nat × Nat)) :
    coveredArray len frags =
      (List.range len).map (fun i =>
        frags.any (fun f => decide (f.1 ≤ i) && decide (i ≤ f.2))) := by
  unfold coveredArray
  have base : List.replicate len false =
      (List.range len).map (fun _ => false) := by
    rw [List.map_const', List.length_range]
  rw [base, foldl_fillRange]
  refine List.map_congr_left ?_
  intro i _
  simp

/-- The number of distinct covered 0-based positions: positions below `len`
covered by at least one fragment's inclusive `[start, end]` range (the
claim's reading of the boolean coverage array). -/
def coveredPositionCount (len : Nat) (frags : List (Nat × Nat)) : Nat :=
  (List.range len).countP
    (fun i => frags.any (fun f => decide (f.1 ≤ i) && decide (i ≤ f.2)))

theorem coverageOf_eq_coveredPositionCount (len : Nat)
    (frags : List (Nat × Nat)) :
    coverageOf len frags = (coveredPositionCount len frags : ℚ) / (len : ℚ) := by
  unfold coverageOf coveredPositionCount
  rw [coveredArray_eq_map_range, List.count_eq_countP, List.countP_map]
  have hfun : ((fun x => x == true) ∘ fun i =>
      frags.any (fun f => decide (f.1 ≤ i) && decide (i ≤ f.2))) =
      (fun i => frags.any (fun f => decide (f.1 ≤ i) && decide (i ≤ f.2))) := by
    funext i
    simp [Function.comp]
  rw [hfun]

/-- C4: after `calculateCoverages`, every parent molecule's `coverage` field
is overwritten with the number of distinct covered 0-based positions of its
collected fragments (each fragment contributing its inclusive
`[start, end]` range) divided by the parent's resolved sequence length; a
parent without an aggregation entry, or whose entry collected no fragment,
gets coverage exactly 0. -/
theorem calculateCoverages_coverage :
    ∀ (lenAA lenNA : String → Nat) (s : Store) (check : Bool)
      (x : Nat × ParentMolecule),
    x ∈ (calculateCoverages lenAA lenNA s check).parent_molecules.items →
    (x.2.coverage =
      match (collectParentInfo s lenAA lenNA check).find?
          (fun e => decide (e.1 = x.1)) with
      | some e => (coveredPositionCount e.2.1 e.2.2 : ℚ) / (e.2.1 : ℚ)
      | none => 0) ∧
    (∀ e, (collectParentInfo s lenAA lenNA check).find?
        (fun e => decide (e.1 = x.1)) = some e → e.2.2 = [] →
      x.2.coverage = 0) := by
  intro lenAA lenNA s check x hx
  unfold calculateCoverages at hx
  rw [List.mem_map] at hx
  obtain ⟨y, hy, hxy⟩ := hx
  rcases hf : (collectParentInfo s lenAA lenNA check).find?
      (fun e => decide (e.1 = y.1)) with _ | e0
  · rw [hf] at hxy
    dsimp only at hxy
    have hx1 : x.1 = y.1 := by rw [← hxy]
    have hcov : x.2.coverage = 0 := by rw [← hxy]
    constructor
    · rw [hx1, hf]
      exact hcov
    · intro e he
      rw [hx1, hf] at he
      exact absurd he (by simp)
  · rw [hf] at hxy
    dsimp only at hxy
    have hx1 : x.1 = y.1 := by rw [← hxy]
    have hcov : x.2.coverage = coverageOf e0.2.1 e0.2.2 := by rw [← hxy]
    constructor
    · rw [hx1, hf, hcov]
      exact coverageOf_eq_coveredPositionCount e0.2.1 e0.2.2
    · intro e he hemp
      rw [hx1, hf, Option.some.injEq] at he
      subst he
      rw [hcov, coverageOf_eq_coveredPositionCount, hemp]
      unfold coveredPositionCount
      rw [List.countP_eq_zero.mpr (by intro i _; simp)]
      simp

/-- The concrete store of the spec's coverage example: one protein parent of
sequence length 10 (handle 0) and one peptide whose matches cover the
inclusive ranges `[0, 4]` and `[6, 9]` of that parent. -/
def c4Store : Store :=
  { emptyStore with
    parent_molecules :=
      ⟨[(0, ⟨"P1", MoleculeType.PROTEIN, "AAAAAAAAAA", 0⟩)], 1⟩,
    identified_peptides :=
      ⟨[(0, ⟨"PEPTU", [(0, [⟨0, 4, 'X', 'X'⟩, ⟨6, 9, 'X', 'X'⟩])]⟩)], 1⟩ }

/-- Witness for C4 at the spec's example: the parent of length 10 with
fragments `[0,4]` and `[6,9]` ends with a coverage equal to the
distinct-covered-position count over the length, which is `9/10`. -/
theorem calculateCoverages_coverage_witness :
    ((0, (⟨"P1", MoleculeType.PROTEIN, "AAAAAAAAAA",
        coverageOf 10 [(0, 4), (6, 9)]⟩ : ParentMolecule)) ∈
      (calculateCoverages String.length String.length c4Store
        false).parent_molecules.items) ∧
    coverageOf 10 [(0, 4), (6, 9)] =
      (coveredPositionCount 10 [(0, 4), (6, 9)] : ℚ) / (10 : ℚ) ∧
    coverageOf 10 [(0, 4), (6, 9)] = 9/10 := by
  have hitems : (calculateCoverages String.length String.length c4Store
      false).parent_molecules.items =
      [(0, (⟨"P1", MoleculeType.PROTEIN, "AAAAAAAAAA",
        coverageOf 10 [(0, 4), (6, 9)]⟩ : ParentMolecule))] := rfl
  have hm : ((0 : Nat), (⟨"P1", MoleculeType.PROTEIN, "AAAAAAAAAA",
      coverageOf 10 [(0, 4), (6, 9)]⟩ : ParentMolecule)) ∈
      (calculateCoverages String.length String.length c4Store
        false).parent_molecules.items := by
    rw [hitems]
    exact List.mem_singleton_self _
  have hcount : coveredPositionCount 10 [(0, 4), (6, 9)] = 9 := by decide
  have hth := (calculateCoverages_coverage String.length String.length c4Store
    false _ hm).1
  have h2 : coverageOf 10 [(0, 4), (6, 9)] =
      (coveredPositionCount 10 [(0, 4), (6, 9)] : ℚ) / (10 : ℚ) := hth
  refine ⟨hm, h2, ?_⟩
  rw [h2, hcount]
  norm_num

/-- The concrete store refuting C2: parent 0 has an empty (unresolvable)
sequence and parent 1 a resolvable sequence of length 5; a single peptide
records a match against parent 0 first and a valid full-length match
`[0, 4]` against parent 1 afterwards. -/
def c2Store : Store :=
  { emptyStore with
    parent_molecules :=
      ⟨[(0, ⟨"P0", MoleculeType.PROTEIN, "", 0⟩),
        (1, ⟨"P1", MoleculeType.PROTEIN, "AAAAA", 0⟩)], 2⟩,
    identified_peptides :=
      ⟨[(0, ⟨"AAAAA", [(0, [⟨0, 4, 'X', 'X'⟩]), (1, [⟨0, 4, 'X', 'X'⟩])]⟩)],
        1⟩ }

/-- C2 counterexample: in `c2Store`, parent 0's sequence length resolves to 0
on first encounter while parent 1's resolves to 5 and the same molecule has
a position-valid match `[0, 4]` against parent 1; the claim says parent 1's
match is still accumulated (which would give coverage 1), but after
`calculateCoverages` parent 1's coverage is 0 because the `break` abandons
the rest of the molecule's parent-match list. -/
theorem calculateCoverages_break_counterexample :
    parentLength c2Store.parent_molecules String.length 0 = 0 ∧
    parentLength c2Store.parent_molecules String.length 1 = 5 ∧
    MoleculeParentMatch.hasValidPositions ⟨0, 4, 'X', 'X'⟩ 0 5 = true ∧
    (lookupRec (calculateCoverages String.length String.length c2Store
      false).parent_molecules.items 1).map ParentMolecule.coverage =
      some 0 := by
  refine ⟨rfl, rfl, rfl, ?_⟩
  decide

/-- C2 (amended): when a parent molecule's sequence length resolves to 0 on
first encounter, the scan abandons the whole remainder of that molecule's
`parent_matches` list (the `break`): the matches recorded against that
parent and against every later parent in the same molecule's list are all
skipped, while the entries processed before it (and other molecules'
entries) are accumulated as usual. -/
theorem processMatches_zeroLength_break :
    ∀ (parents : Coll ParentMolecule) (lenF : String → Nat)
      (molecule_length : Nat) (post : List (Nat × List MoleculeParentMatch))
      (pref : Nat) (ms : List MoleculeParentMatch)
      (pre : List (Nat × List MoleculeParentMatch)) (info : ParentInfo),
    hasKey (processMatches parents lenF molecule_length pre info) pref =
      false →
    parentLength parents lenF pref = 0 →
    processMatches parents lenF molecule_length
        (pre ++ (pref, ms) :: post) info =
      processMatches parents lenF molecule_length pre info := by
  intro parents lenF ml post pref ms pre
  induction pre with
  | nil =>
    intro info hkey hlen
    simp only [processMatches] at hkey ⊢
    rw [if_neg (by simp [hkey]), if_pos hlen]
  | cons x pre' ih =>
    intro info hkey hlen
    rcases x with ⟨xp, xms⟩
    rw [List.cons_append]
    simp only [processMatches] at hkey ⊢
    by_cases hk : hasKey info xp = true
    · simp only [if_pos hk] at hkey ⊢
      exact ih _ hkey hlen
    · simp only [if_neg hk] at hkey ⊢
      by_cases hl : parentLength parents lenF xp = 0
      · simp only [if_pos hl] at hkey ⊢
      · simp only [if_neg hl] at hkey ⊢
        exact ih _ hkey hlen

/-- Witness for the amended C2 on `c2Store`: starting from an empty
aggregation state, the single molecule's list `[(0, …), (1, …)]` collapses
to the empty state — the zero-length first entry makes the scan drop the
valid match against parent 1 as well. -/
theorem processMatches_zeroLength_break_witness :
    hasKey (processMatches c2Store.parent_molecules String.length 0 [] []) 0 =
      false ∧
    parentLength c2Store.parent_molecules String.length 0 = 0 ∧
    processMatches c2Store.parent_molecules String.length 0
      ([] ++ (0, [⟨0, 4, 'X', 'X'⟩]) :: [(1, [⟨0, 4, 'X', 'X'⟩])]) [] =
      processMatches c2Store.parent_molecules String.length 0 [] [] :=
  ⟨rfl, rfl,
    processMatches_zeroLength_break c2Store.parent_molecules String.length 0
      [(1, [⟨0, 4, 'X', 'X'⟩])] 0 [⟨0, 4, 'X', 'X'⟩] [] [] rfl rfl⟩

/-- One collection is a sub-collection of another: every resolving handle of
the first resolves in the second. -/
def SubColl {α : Type} (c d : Coll α) : Prop :=
  ∀ h, hasKey c.items h = true → hasKey d.items h = true

/-- The frame relation of `cleanup`: the five metadata collections, the
step-to-search-parameters side table and the current-step slot are equal,
and the eight data collections of the first store only shrink (every
surviving handle was already present). -/
def SubStore (t s : Store) : Prop :=
  t.input_files = s.input_files ∧
  t.processing_software = s.processing_software ∧
  t.db_search_params = s.db_search_params ∧
  t.processing_steps = s.processing_steps ∧
  t.score_types = s.score_types ∧
  t.db_search_steps = s.db_search_steps ∧
  t.current_step_ref = s.current_step_ref ∧
  SubColl t.data_queries s.data_queries ∧
  SubColl t.identified_peptides s.identified_peptides ∧
  SubColl t.identified_compounds s.identified_compounds ∧
  SubColl t.identified_oligos s.identified_oligos ∧
  SubColl t.parent_molecules s.parent_molecules ∧
  SubColl t.parent_molecule_groups s.parent_molecule_groups ∧
  SubColl t.query_matches s.query_matches ∧
  SubColl t.query_match_groups s.query_match_groups

theorem subColl_refl {α : Type} (c : Coll α) : SubColl c c :=
  fun _ h => h

theorem subColl_trans {α : Type} {c d e : Coll α} (h1 : SubColl c d)
    (h2 : SubColl d e) : SubColl c e :=
  fun k hk => h2 k (h1 k hk)

theorem hasKey_of_mem {α : Type} {l : List (Nat × α)} {x : Nat × α}
    (hx : x ∈ l) : hasKey l x.1 = true := by
  rw [hasKey_iff]
  exact ⟨x.2, hx⟩

theorem hasKey_filter {α : Type} (l : List (Nat × α)) (p : Nat × α → Bool)
    (k : Nat) (h : hasKey (l.filter p) k = true) : hasKey l k = true := by
  rw [hasKey_iff] at h ⊢
  obtain ⟨a, ha⟩ := h
  exact ⟨a, (List.mem_filter.mp ha).1⟩

theorem subColl_filterRecs {α : Type} (c : Coll α) (p : Nat → α → Bool) :
    SubColl (c.filterRecs p) c :=
  fun k hk => hasKey_filter c.items _ k hk

theorem subColl_keepKeys {α : Type} (c : Coll α) (refs : List Nat) :
    SubColl (c.keepKeys refs) c :=
  fun k hk => hasKey_filter c.items _ k hk

theorem hasKey_mapRecs {α : Type} (c : Coll α) (f : α → α) (k : Nat) :
    hasKey (c.mapRecs f).items k = hasKey c.items k := by
  unfold Coll.mapRecs hasKey
  rw [List.any_map]
  exact congrArg _ (funext fun x => rfl)

theorem subColl_mapRecs {α : Type} (c : Coll α) (f : α → α) :
    SubColl (c.mapRecs f) c :=
  fun k hk => by rwa [hasKey_mapRecs] at hk

theorem subStore_refl (s : Store) : SubStore s s :=
  ⟨rfl, rfl, rfl, rfl, rfl, rfl, rfl, subColl_refl _, subColl_refl _,
    subColl_refl _, subColl_refl _, subColl_refl _, subColl_refl _,
    subColl_refl _, subColl_refl _⟩

theorem subStore_trans {t u s : Store} (h1 : SubStore t u)
    (h2 : SubStore u s) : SubStore t s := by
  obtain ⟨a1, a2, a3, a4, a5, a6, a7, a8, a9, a10, a11, a12, a13, a14, a15⟩ :=
    h1
  obtain ⟨b1, b2, b3, b4, b5, b6, b7, b8, b9, b10, b11, b12, b13, b14, b15⟩ :=
    h2
  refine ⟨?_, ?_, ?_, ?_, ?_, ?_, ?_, ?_, ?_, ?_, ?_, ?_, ?_, ?_, ?_⟩
  · rw [a1, b1]
  · rw [a2, b2]
  · rw [a3, b3]
  · rw [a4, b4]
  · rw [a5, b5]
  · rw [a6, b6]
  · rw [a7, b7]
  · exact subColl_trans a8 b8
  · exact subColl_trans a9 b9
  · exact subColl_trans a10 b10
  · exact subColl_trans a11 b11
  · exact subColl_trans a12 b12
  · exact subColl_trans a13 b13
  · exact subColl_trans a14 b14
  · exact subColl_trans a15 b15

theorem subStore_ite {f : Store → Store} (hf : ∀ u, SubStore (f u) u)
    (b : Bool) (u : Store) : SubStore (if b then f u else u) u := by
  cases b
  · exact subStore_refl u
  · exact hf u

theorem subStore_pass1 (u : Store) : SubStore (pruneParentsByGroups u) u :=
  ⟨rfl, rfl, rfl, rfl, rfl, rfl, rfl, subColl_refl _, subColl_refl _,
    subColl_refl _, subColl_refl _, subColl_keepKeys _ _, subColl_refl _,
    subColl_refl _, subColl_refl _⟩

theorem subStore_pass2 (u : Store) :
    SubStore (removeDanglingParentMatches u) u :=
  ⟨rfl, rfl, rfl, rfl, rfl, rfl, rfl, subColl_refl _, subColl_mapRecs _ _,
    subColl_refl _, subColl_mapRecs _ _, subColl_refl _, subColl_refl _,
    subColl_refl _, subColl_refl _⟩

theorem subStore_pass3 (u : Store) :
    SubStore (removeEmptyParentMatchMolecules u) u :=
  ⟨rfl, rfl, rfl, rfl, rfl, rfl, rfl, subColl_refl _, subColl_filterRecs _ _,
    subColl_refl _, subColl_filterRecs _ _, subColl_refl _, subColl_refl _,
    subColl_refl _, subColl_refl _⟩

theorem subStore_pass4 (u : Store) :
    SubStore (removeDanglingQueryMatches u) u :=
  ⟨rfl, rfl, rfl, rfl, rfl, rfl, rfl, subColl_refl _, subColl_refl _,
    subColl_refl _, subColl_refl _, subColl_refl _, subColl_refl _,
    subColl_filterRecs _ _, subColl_refl _⟩

theorem subStore_pass5 (u : Store) : SubStore (pruneMatchesByGroups u) u :=
  ⟨rfl, rfl, rfl, rfl, rfl, rfl, rfl, subColl_refl _, subColl_refl _,
    subColl_refl _, subColl_refl _, subColl_refl _, subColl_refl _,
    subColl_keepKeys _ _, subColl_refl _⟩

theorem subStore_pass6 (u : Store) : SubStore (pruneByQueryMatches u) u :=
  ⟨rfl, rfl, rfl, rfl, rfl, rfl, rfl, subColl_keepKeys _ _,
    subColl_keepKeys _ _, subColl_keepKeys _ _, subColl_keepKeys _ _,
    subColl_refl _, subColl_refl _, subColl_refl _, subColl_refl _⟩

theorem subStore_pass7 (u : Store) :
    SubStore (pruneParentsByIdentified u) u :=
  ⟨rfl, rfl, rfl, rfl, rfl, rfl, rfl, subColl_refl _, subColl_refl _,
    subColl_refl _, subColl_refl _, subColl_keepKeys _ _, subColl_refl _,
    subColl_refl _, subColl_refl _⟩

theorem pruneGroupItems_cons (keep : Nat → Bool) (g : Nat × List Nat)
    (gs : List (Nat × List Nat)) :
    pruneGroupItems keep (g :: gs) =
      (if (g.2.filter keep).isEmpty then (pruneGroupItems keep gs).1
        else (g.1, g.2.filter keep) :: (pruneGroupItems keep gs).1,
       if (g.2.filter keep).isEmpty then (pruneGroupItems keep gs).2
        else ((pruneGroupItems keep gs).2 ||
          decide ((g.2.filter keep).length ≠ g.2.length))) := by
  unfold pruneGroupItems
  rw [List.foldr_cons]
  dsimp only
  by_cases hc : (g.2.filter keep).isEmpty = true
  · rw [if_pos hc, if_pos hc, if_pos hc]
  · rw [if_neg hc, if_neg hc, if_neg hc]

theorem pruneGroupItems_mem (keep : Nat → Bool) :
    ∀ (items : List (Nat × List Nat)) (x : Nat × List Nat),
    x ∈ (pruneGroupItems keep items).1 ↔
      ∃ g, g ∈ items ∧ x.1 = g.1 ∧ x.2 = g.2.filter keep ∧
        g.2.filter keep ≠ [] := by
  intro items
  induction items with
  | nil =>
    intro x
    simp [pruneGroupItems]
  | cons g gs ih =>
    intro x
    rw [pruneGroupItems_cons]
    by_cases hc : (g.2.filter keep).isEmpty = true
    · rw [if_pos hc]
      rw [List.isEmpty_iff] at hc
      rw [ih x]
      constructor
      · rintro ⟨g0, hg0, h1, h2, h3⟩
        exact ⟨g0, List.mem_cons_of_mem _ hg0, h1, h2, h3⟩
      · rintro ⟨g0, hg0, h1, h2, h3⟩
        rcases List.mem_cons.mp hg0 with he | hm
        · subst he
          exact absurd hc h3
        · exact ⟨g0, hm, h1, h2, h3⟩
    · rw [if_neg hc]
      rw [List.isEmpty_iff] at hc
      rw [List.mem_cons, ih x]
      constructor
      · rintro (he | ⟨g0, hg0, h1, h2, h3⟩)
        · exact ⟨g, List.mem_cons_self _ _, by rw [he], by rw [he], hc⟩
        · exact ⟨g0, List.mem_cons_of_mem _ hg0, h1, h2, h3⟩
      · rintro ⟨g0, hg0, h1, h2, h3⟩
        rcases List.mem_cons.mp hg0 with he | hm
        · subst he
          left
          rcases x with ⟨x1, x2⟩
          simp only at h1 h2
          rw [h1, h2]
        · right
          exact ⟨g0, hm, h1, h2, h3⟩

theorem pruneGroupItems_warn (keep : Nat → Bool) :
    ∀ (items : List (Nat × List Nat)),
    (pruneGroupItems keep items).2 = true ↔
      ∃ g, g ∈ items ∧ g.2.filter keep ≠ [] ∧
        (g.2.filter keep).length ≠ g.2.length := by
  intro items
  induction items with
  | nil =>
    simp [pruneGroupItems]
  | cons g gs ih =>
    rw [pruneGroupItems_cons]
    dsimp only
    by_cases hc : (g.2.filter keep).isEmpty = true
    · rw [if_pos hc]
      rw [List.isEmpty_iff] at hc
      rw [ih]
      constructor
      · rintro ⟨g0, hg0, h1, h2⟩
        exact ⟨g0, List.mem_cons_of_mem _ hg0, h1, h2⟩
      · rintro ⟨g0, hg0, h1, h2⟩
        rcases List.mem_cons.mp hg0 with he | hm
        · subst he
          exact absurd hc h1
        · exact ⟨g0, hm, h1, h2⟩
    · rw [if_neg hc]
      rw [List.isEmpty_iff] at hc
      rw [Bool.or_eq_true, ih]
      constructor
      · rintro (⟨g0, hg0, h1, h2⟩ | hs)
        · exact ⟨g0, List.mem_cons_of_mem _ hg0, h1, h2⟩
        · rw [decide_eq_true_eq] at hs
          exact ⟨g, List.mem_cons_self _ _, hc, hs⟩
      · rintro ⟨g0, hg0, h1, h2⟩
        rcases List.mem_cons.mp hg0 with he | hm
        · subst he
          right
          rw [decide_eq_true_eq]
          exact h2
        · left
          exact ⟨g0, hm, h1, h2⟩

theorem hasKey_pruneGroupItems (keep : Nat → Bool)
    (items : List (Nat × List Nat)) (k : Nat)
    (h : hasKey (pruneGroupItems keep items).1 k = true) :
    hasKey items k = true := by
  rw [hasKey_iff] at h ⊢
  obtain ⟨a, ha⟩ := h
  rw [pruneGroupItems_mem] at ha
  obtain ⟨g, hg, h1, _, _⟩ := ha
  simp only at h1
  subst h1
  exact ⟨g.2, by rwa [← Prod.mk.eta (p := g)] at hg⟩

theorem subStore_pass8 (u : Store) : SubStore (pruneParentGroups u).1 u := by
  refine ⟨rfl, rfl, rfl, rfl, rfl, rfl, rfl, subColl_refl _, subColl_refl _,
    subColl_refl _, subColl_refl _, subColl_refl _, ?_, subColl_refl _,
    subColl_refl _⟩
  intro k hk
  unfold pruneParentGroups at hk
  dsimp only at hk
  rw [hasKey_iff] at hk
  obtain ⟨a, ha⟩ := hk
  rw [List.mem_map] at ha
  obtain ⟨y, hy, hya⟩ := ha
  have hk2 : hasKey (pruneGroupItems
      (fun h => hasKey u.parent_molecules.items h)
      (u.parent_molecule_groups.items.map
        (fun g => (g.1, g.2.parent_molecule_refs)))).1 k = true := by
    rw [hasKey_iff]
    refine ⟨y.2, ?_⟩
    have hk1 : y.1 = k := congrArg Prod.fst hya
    rwa [← hk1, Prod.mk.eta]
  have hk3 := hasKey_pruneGroupItems _ _ _ hk2
  rw [hasKey_iff] at hk3 ⊢
  obtain ⟨a2, ha2⟩ := hk3
  rw [List.mem_map] at ha2
  obtain ⟨z, hz, hza⟩ := ha2
  have hz1 : z.1 = k := congrArg Prod.fst hza
  exact ⟨z.2, by rwa [← hz1, Prod.mk.eta]⟩

theorem subStore_pass9 (u : Store) :
    SubStore (pruneQueryMatchGroups u).1 u := by
  refine ⟨rfl, rfl, rfl, rfl, rfl, rfl, rfl, subColl_refl _, subColl_refl _,
    subColl_refl _, subColl_refl _, subColl_refl _, subColl_refl _,
    subColl_refl _, ?_⟩
  intro k hk
  unfold pruneQueryMatchGroups at hk
  dsimp only at hk
  rw [hasKey_iff] at hk
  obtain ⟨a, ha⟩ := hk
  rw [List.mem_map] at ha
  obtain ⟨y, hy, hya⟩ := ha
  have hk2 : hasKey (pruneGroupItems
      (fun h => hasKey u.query_matches.items h)
      (u.query_match_groups.items.map
        (fun g => (g.1, g.2.query_match_refs)))).1 k = true := by
    rw [hasKey_iff]
    refine ⟨y.2, ?_⟩
    have hk1 : y.1 = k := congrArg Prod.fst hya
    rwa [← hk1, Prod.mk.eta]
  have hk3 := hasKey_pruneGroupItems _ _ _ hk2
  rw [hasKey_iff] at hk3 ⊢
  obtain ⟨a2, ha2⟩ := hk3
  rw [List.mem_map] at ha2
  obtain ⟨z, hz, hza⟩ := ha2
  have hz1 : z.1 = k := congrArg Prod.fst hza
  exact ⟨z.2, by rwa [← hz1, Prod.mk.eta]⟩

/-- C10: `cleanup` never removes records from the input-file, software,
search-parameter, processing-step or score-type collections, never modifies
the step-to-search-parameters side table, and never changes the
current-processing-step slot; only the eight data collections (queries,
identified molecules, parent molecules, query matches and the two group
collections) can shrink. -/
theorem cleanup_frame :
    ∀ (s : Store) (b1 b2 b3 b4 b5 : Bool),
    SubStore (cleanup s b1 b2 b3 b4 b5).1 s := by
  intro s b1 b2 b3 b4 b5
  unfold cleanup cleanupMain
  refine subStore_trans (subStore_pass9 _) (subStore_trans (subStore_pass8 _)
    (subStore_trans (subStore_ite subStore_pass7 b2 _)
      (subStore_trans (subStore_ite subStore_pass6 b1 _)
        (subStore_trans (subStore_ite subStore_pass5 b5 _)
          (subStore_trans (subStore_pass4 _)
            (subStore_trans (subStore_ite subStore_pass3 b3 _)
              (subStore_trans (subStore_pass2 _)
                (subStore_ite subStore_pass1 b4 _))))))))

/-- Invariant 1 for identified peptides: every parent handle stored in a
peptide's `parent_matches` resolves. -/
def PepMatchesOk (s : Store) : Prop :=
  ∀ x ∈ s.identified_peptides.items, ∀ pm ∈ x.2.parent_matches,
    hasKey s.parent_molecules.items pm.1 = true

/-- Invariant 1 for identified oligos. -/
def OliMatchesOk (s : Store) : Prop :=
  ∀ x ∈ s.identified_oligos.items, ∀ pm ∈ x.2.parent_matches,
    hasKey s.parent_molecules.items pm.1 = true

/-- Invariant 1 for the identified-molecule reference of query matches. -/
def MatchMolOk (s : Store) : Prop :=
  ∀ x ∈ s.query_matches.items,
    molResolves s x.2.identified_molecule_ref = true

/-- Invariant 1 for the data-query reference of query matches. -/
def MatchQueryOk (s : Store) : Prop :=
  ∀ x ∈ s.query_matches.items,
    hasKey s.data_queries.items x.2.data_query_ref = true

/-- Invariant 1 for parent-molecule groups. -/
def ParentGroupsOk (s : Store) : Prop :=
  ∀ x ∈ s.parent_molecule_groups.items, ∀ h ∈ x.2.parent_molecule_refs,
    hasKey s.parent_molecules.items h = true

/-- Invariant 1 for query-match groups. -/
def MatchGroupsOk (s : Store) : Prop :=
  ∀ x ∈ s.query_match_groups.items, ∀ h ∈ x.2.query_match_refs,
    hasKey s.query_matches.items h = true

/-- A store with no dangling cross-references among the five reference kinds
stored inside records (spec invariant 1). -/
def Consistent (s : Store) : Prop :=
  PepMatchesOk s ∧ OliMatchesOk s ∧ MatchMolOk s ∧ MatchQueryOk s ∧
    ParentGroupsOk s ∧ MatchGroupsOk s

theorem map_snd_id {α : Type} (l : List (Nat × α)) (g : α → α)
    (h : ∀ x ∈ l, g x.2 = x.2) : l.map (fun x => (x.1, g x.2)) = l := by
  induction l with
  | nil => rfl
  | cons a t ih =>
    rw [List.map_cons, h a (List.mem_cons_self a t),
      ih (fun x hx => h x (List.mem_cons_of_mem _ hx)), Prod.mk.eta]

theorem mapRecs_id {α : Type} (c : Coll α) (g : α → α)
    (h : ∀ x ∈ c.items, g x.2 = x.2) : c.mapRecs g = c := by
  unfold Coll.mapRecs
  rw [map_snd_id c.items g h]

theorem filterRecs_id {α : Type} (c : Coll α) (p : Nat → α → Bool)
    (h : ∀ x ∈ c.items, p x.1 x.2 = true) : c.filterRecs p = c := by
  unfold Coll.filterRecs
  rw [List.filter_eq_self.mpr (fun x hx => h x hx)]

theorem removeDanglingParentMatches_id (s : Store) (hpep : PepMatchesOk s)
    (holi : OliMatchesOk s) : removeDanglingParentMatches s = s := by
  unfold removeDanglingParentMatches
  rw [mapRecs_id _ _ (fun x hx => by
    rw [List.filter_eq_self.mpr (fun pm hpm => hpep x hx pm hpm)])]
  rw [mapRecs_id _ _ (fun x hx => by
    rw [List.filter_eq_self.mpr (fun pm hpm => holi x hx pm hpm)])]

theorem removeDanglingQueryMatches_id (s : Store) (hmol : MatchMolOk s) :
    removeDanglingQueryMatches s = s := by
  unfold removeDanglingQueryMatches
  rw [filterRecs_id _ _ (fun x hx => hmol x hx)]

theorem pruneGroupItems_id (keep : Nat → Bool)
    (items : List (Nat × List Nat))
    (h : ∀ g ∈ items, g.2.filter keep = g.2 ∧ g.2 ≠ []) :
    pruneGroupItems keep items = (items, false) := by
  induction items with
  | nil => rfl
  | cons g gs ih =>
    rw [pruneGroupItems_cons,
      ih (fun g0 hg0 => h g0 (List.mem_cons_of_mem _ hg0))]
    obtain ⟨hfe, hne⟩ := h g (List.mem_cons_self g gs)
    rw [hfe]
    rw [if_neg (by rw [List.isEmpty_iff]; exact hne),
      if_neg (by rw [List.isEmpty_iff]; exact hne)]
    simp [hfe, Prod.mk.eta]

theorem map_wrap_parent (l : List (Nat × ParentMoleculeGroup)) :
    (l.map (fun g => (g.1, g.2.parent_molecule_refs))).map
      (fun g => ((g.1 : Nat), (⟨g.2⟩ : ParentMoleculeGroup))) = l := by
  induction l with
  | nil => rfl
  | cons a t ih =>
    rw [List.map_cons, List.map_cons, ih]

theorem map_wrap_query (l : List (Nat × QueryMatchGroup)) :
    (l.map (fun g => (g.1, g.2.query_match_refs))).map
      (fun g => ((g.1 : Nat), (⟨g.2⟩ : QueryMatchGroup))) = l := by
  induction l with
  | nil => rfl
  | cons a t ih =>
    rw [List.map_cons, List.map_cons, ih]

theorem pruneParentGroups_id (s : Store) (hpg : ParentGroupsOk s)
    (hne : ∀ x ∈ s.parent_molecule_groups.items,
      x.2.parent_molecule_refs ≠ []) :
    pruneParentGroups s = (s, false) := by
  unfold pruneParentGroups
  rw [pruneGroupItems_id _ _ (by
    intro g hg
    rw [List.mem_map] at hg
    obtain ⟨y, hy, hgy⟩ := hg
    subst hgy
    exact ⟨List.filter_eq_self.mpr (fun h hh => hpg y hy h hh), hne y hy⟩)]
  dsimp only
  rw [map_wrap_parent]

theorem pruneQueryMatchGroups_id (s : Store) (hmg : MatchGroupsOk s)
    (hne : ∀ x ∈ s.query_match_groups.items, x.2.query_match_refs ≠ []) :
    pruneQueryMatchGroups s = (s, false) := by
  unfold pruneQueryMatchGroups
  rw [pruneGroupItems_id _ _ (by
    intro g hg
    rw [List.mem_map] at hg
    obtain ⟨y, hy, hgy⟩ := hg
    subst hgy
    exact ⟨List.filter_eq_self.mpr (fun h hh => hmg y hy h hh), hne y hy⟩)]
  dsimp only
  rw [map_wrap_query]

/-- C9 (amended): on a consistent store (no dangling cross-references) whose
group collections contain no empty group, `cleanup` with all five flags
false removes no record and leaves every record's contents unchanged — and
emits no warning. -/
theorem cleanup_allFalse_noop :
    ∀ s : Store, Consistent s →
    (∀ x ∈ s.parent_molecule_groups.items,
      x.2.parent_molecule_refs ≠ []) →
    (∀ x ∈ s.query_match_groups.items, x.2.query_match_refs ≠ []) →
    cleanup s false false false false false = (s, false, false) := by
  intro s hc hne1 hne2
  obtain ⟨hpep, holi, hmol, _, hpg, hmg⟩ := hc
  have h2 := removeDanglingParentMatches_id s hpep holi
  have h4 := removeDanglingQueryMatches_id s hmol
  have h8 := pruneParentGroups_id s hpg hne1
  have h9 := pruneQueryMatchGroups_id s hmg hne2
  unfold cleanup cleanupMain
  simp only [Bool.false_eq_true, if_false, h2, h4, h8, h9]

/-- A consistent store with one parent molecule and a non-empty group
containing it. -/
def c9wStore : Store :=
  { emptyStore with
    parent_molecules :=
      ⟨[(0, ⟨"P1", MoleculeType.PROTEIN, "AAAA", 0⟩)], 1⟩,
    parent_molecule_groups := ⟨[(0, ⟨[0]⟩)], 1⟩ }

/-- Witness for the amended C9: the consistent store `c9wStore`, whose only
group is non-empty, is returned unchanged (with no warnings) by an
all-flags-false cleanup. -/
theorem cleanup_allFalse_noop_witness :
    cleanup c9wStore false false false false false =
      (c9wStore, false, false) :=
  cleanup_allFalse_noop c9wStore
    ⟨by
        intro x hx
        exact absurd hx (List.not_mem_nil x),
      by
        intro x hx
        exact absurd hx (List.not_mem_nil x),
      by
        intro x hx
        exact absurd hx (List.not_mem_nil x),
      by
        intro x hx
        exact absurd hx (List.not_mem_nil x),
      by
        intro x hx h hh
        simp only [c9wStore, emptyStore, List.mem_singleton] at hx
        rw [hx] at hh
        have hh' : h ∈ [(0 : Nat)] := hh
        rw [List.mem_singleton] at hh'
        subst hh'
        rfl,
      by
        intro x hx
        exact absurd hx (List.not_mem_nil x)⟩
    (by
      intro x hx
      simp only [c9wStore, emptyStore, List.mem_singleton] at hx
      rw [hx]
      simp)
    (by
      intro x hx
      exact absurd hx (List.not_mem_nil x))

/-- The consistent store with a single empty parent-molecule group. -/
def c9Store : Store :=
  { emptyStore with parent_molecule_groups := ⟨[(0, ⟨[]⟩)], 1⟩ }

/-- C9 counterexample: `c9Store` has no dangling cross-references (it is
consistent), yet `cleanup` with all five flags false deletes its empty
parent-molecule group, so cleanup is not a no-op on every consistent
store. -/
theorem cleanup_emptyGroup_counterexample :
    Consistent c9Store ∧
    c9Store.parent_molecule_groups.items ≠ [] ∧
    (cleanup c9Store false false false false
      false).1.parent_molecule_groups.items = [] := by
  refine ⟨⟨?_, ?_, ?_, ?_, ?_, ?_⟩, by simp [c9Store, emptyStore], rfl⟩
  · intro x hx
    simp [c9Store, emptyStore] at hx
  · intro x hx
    simp [c9Store, emptyStore] at hx
  · intro x hx
    simp [c9Store, emptyStore] at hx
  · intro x hx
    simp [c9Store, emptyStore] at hx
  · intro x hx pm hpm
    simp [c9Store, emptyStore] at hx
    rw [hx] at hpm
    cases hpm
  · intro x hx
    simp [c9Store, emptyStore] at hx

theorem ite_groups_eq (f : Store → Store)
    (hp : ∀ u, (f u).parent_molecule_groups = u.parent_molecule_groups)
    (hq : ∀ u, (f u).query_match_groups = u.query_match_groups)
    (b : Bool) (u : Store) :
    (if b then f u else u).parent_molecule_groups =
      u.parent_molecule_groups ∧
    (if b then f u else u).query_match_groups = u.query_match_groups := by
  cases b
  · exact ⟨rfl, rfl⟩
  · exact ⟨hp u, hq u⟩

theorem cleanupMain_groups (s : Store) (b1 b2 b3 b4 b5 : Bool) :
    (cleanupMain s b1 b2 b3 b4 b5).parent_molecule_groups =
      s.parent_molecule_groups ∧
    (cleanupMain s b1 b2 b3 b4 b5).query_match_groups =
      s.query_match_groups := by
  unfold cleanupMain
  constructor
  · rw [(ite_groups_eq pruneParentsByIdentified (fun _ => rfl) (fun _ => rfl)
        b2 _).1,
      (ite_groups_eq pruneByQueryMatches (fun _ => rfl) (fun _ => rfl)
        b1 _).1,
      (ite_groups_eq pruneMatchesByGroups (fun _ => rfl) (fun _ => rfl)
        b5 _).1,
      show ∀ u : Store, (removeDanglingQueryMatches u).parent_molecule_groups
        = u.parent_molecule_groups from fun _ => rfl,
      (ite_groups_eq removeEmptyParentMatchMolecules (fun _ => rfl)
        (fun _ => rfl) b3 _).1,
      show ∀ u : Store, (removeDanglingParentMatches u).parent_molecule_groups
        = u.parent_molecule_groups from fun _ => rfl,
      (ite_groups_eq pruneParentsByGroups (fun _ => rfl) (fun _ => rfl)
        b4 _).1]
  · rw [(ite_groups_eq pruneParentsByIdentified (fun _ => rfl) (fun _ => rfl)
        b2 _).2,
      (ite_groups_eq pruneByQueryMatches (fun _ => rfl) (fun _ => rfl)
        b1 _).2,
      (ite_groups_eq pruneMatchesByGroups (fun _ => rfl) (fun _ => rfl)
        b5 _).2,
      show ∀ u : Store, (removeDanglingQueryMatches u).query_match_groups
        = u.query_match_groups from fun _ => rfl,
      (ite_groups_eq removeEmptyParentMatchMolecules (fun _ => rfl)
        (fun _ => rfl) b3 _).2,
      show ∀ u : Store, (removeDanglingParentMatches u).query_match_groups
        = u.query_match_groups from fun _ => rfl,
      (ite_groups_eq pruneParentsByGroups (fun _ => rfl) (fun _ => rfl)
        b4 _).2]

theorem mem_wrap_parent (l : List (Nat × List Nat))
    (x : Nat × ParentMoleculeGroup) :
    x ∈ l.map (fun g => ((g.1 : Nat), (⟨g.2⟩ : ParentMoleculeGroup))) ↔
      (x.1, x.2.parent_molecule_refs) ∈ l := by
  rw [List.mem_map]
  constructor
  · rintro ⟨y, hy, he⟩
    have h1 : y.1 = x.1 := congrArg Prod.fst he
    have h2 : y.2 = x.2.parent_molecule_refs :=
      congrArg (fun t => t.2.parent_molecule_refs) he
    rw [← h1, ← h2, Prod.mk.eta]
    exact hy
  · intro hm
    exact ⟨(x.1, x.2.parent_molecule_refs), hm, rfl⟩

theorem mem_wrap_query (l : List (Nat × List Nat))
    (x : Nat × QueryMatchGroup) :
    x ∈ l.map (fun g => ((g.1 : Nat), (⟨g.2⟩ : QueryMatchGroup))) ↔
      (x.1, x.2.query_match_refs) ∈ l := by
  rw [List.mem_map]
  constructor
  · rintro ⟨y, hy, he⟩
    have h1 : y.1 = x.1 := congrArg Prod.fst he
    have h2 : y.2 = x.2.query_match_refs :=
      congrArg (fun t => t.2.query_match_refs) he
    rw [← h1, ← h2, Prod.mk.eta]
    exact hy
  · intro hm
    exact ⟨(x.1, x.2.query_match_refs), hm, rfl⟩

/-- C8: during every `cleanup` call, each parent-molecule group is stripped
of exactly the member handles that do not resolve among the surviving
parent molecules; a group whose membership becomes empty is deleted, a
group that keeps at least one member survives with the filtered membership,
and the (non-fatal) warning flag is set exactly when some surviving group
shrank.  The same semantics hold for query-match groups against the
surviving query matches. -/
theorem cleanup_group_pruning :
    ∀ (s : Store) (b1 b2 b3 b4 b5 : Bool),
    (∀ x : Nat × ParentMoleculeGroup,
      x ∈ (cleanup s b1 b2 b3 b4 b5).1.parent_molecule_groups.items ↔
      ∃ g ∈ s.parent_molecule_groups.items, x.1 = g.1 ∧
        x.2.parent_molecule_refs = g.2.parent_molecule_refs.filter
          (fun h => hasKey
            (cleanup s b1 b2 b3 b4 b5).1.parent_molecules.items h) ∧
        g.2.parent_molecule_refs.filter
          (fun h => hasKey
            (cleanup s b1 b2 b3 b4 b5).1.parent_molecules.items h) ≠ []) ∧
    ((cleanup s b1 b2 b3 b4 b5).2.1 = true ↔
      ∃ g ∈ s.parent_molecule_groups.items,
        g.2.parent_molecule_refs.filter
          (fun h => hasKey
            (cleanup s b1 b2 b3 b4 b5).1.parent_molecules.items h) ≠ [] ∧
        (g.2.parent_molecule_refs.filter
          (fun h => hasKey
            (cleanup s b1 b2 b3 b4 b5).1.parent_molecules.items h)).length ≠
          g.2.parent_molecule_refs.length) ∧
    (∀ x : Nat × QueryMatchGroup,
      x ∈ (cleanup s b1 b2 b3 b4 b5).1.query_match_groups.items ↔
      ∃ g ∈ s.query_match_groups.items, x.1 = g.1 ∧
        x.2.query_match_refs = g.2.query_match_refs.filter
          (fun h => hasKey
            (cleanup s b1 b2 b3 b4 b5).1.query_matches.items h) ∧
        g.2.query_match_refs.filter
          (fun h => hasKey
            (cleanup s b1 b2 b3 b4 b5).1.query_matches.items h) ≠ []) ∧
    ((cleanup s b1 b2 b3 b4 b5).2.2 = true ↔
      ∃ g ∈ s.query_match_groups.items,
        g.2.query_match_refs.filter
          (fun h => hasKey
            (cleanup s b1 b2 b3 b4 b5).1.query_matches.items h) ≠ [] ∧
        (g.2.query_match_refs.filter
          (fun h => hasKey
            (cleanup s b1 b2 b3 b4 b5).1.query_matches.items h)).length ≠
          g.2.query_match_refs.length) := by
  intro s b1 b2 b3 b4 b5
  obtain ⟨hgp, hgq⟩ := cleanupMain_groups s b1 b2 b3 b4 b5
  have hpitems : (cleanup s b1 b2 b3 b4 b5).1.parent_molecule_groups.items =
      ((pruneGroupItems (fun h => hasKey
          (cleanup s b1 b2 b3 b4 b5).1.parent_molecules.items h)
        ((cleanupMain s b1 b2 b3 b4 b5).parent_molecule_groups.items.map
          (fun g => (g.1, g.2.parent_molecule_refs)))).1.map
        (fun g => ((g.1 : Nat), (⟨g.2⟩ : ParentMoleculeGroup)))) := rfl
  have hqitems : (cleanup s b1 b2 b3 b4 b5).1.query_match_groups.items =
      ((pruneGroupItems (fun h => hasKey
          (cleanup s b1 b2 b3 b4 b5).1.query_matches.items h)
        ((cleanupMain s b1 b2 b3 b4 b5).query_match_groups.items.map
          (fun g => (g.1, g.2.query_match_refs)))).1.map
        (fun g => ((g.1 : Nat), (⟨g.2⟩ : QueryMatchGroup)))) := rfl
  have hpwarn : (cleanup s b1 b2 b3 b4 b5).2.1 =
      (pruneGroupItems (fun h => hasKey
          (cleanup s b1 b2 b3 b4 b5).1.parent_molecules.items h)
        ((cleanupMain s b1 b2 b3 b4 b5).parent_molecule_groups.items.map
          (fun g => (g.1, g.2.parent_molecule_refs)))).2 := rfl
  have hqwarn : (cleanup s b1 b2 b3 b4 b5).2.2 =
      (pruneGroupItems (fun h => hasKey
          (cleanup s b1 b2 b3 b4 b5).1.query_matches.items h)
        ((cleanupMain s b1 b2 b3 b4 b5).query_match_groups.items.map
          (fun g => (g.1, g.2.query_match_refs)))).2 := rfl
  refine ⟨?_, ?_, ?_, ?_⟩
  · intro x
    rw [hpitems, hgp, mem_wrap_parent, pruneGroupItems_mem]
    constructor
    · rintro ⟨g0, hg0, h1, h2, h3⟩
      rw [List.mem_map] at hg0
      obtain ⟨g, hg, hgg⟩ := hg0
      subst hgg
      exact ⟨g, hg, h1, h2, h3⟩
    · rintro ⟨g, hg, h1, h2, h3⟩
      exact ⟨(g.1, g.2.parent_molecule_refs),
        List.mem_map.mpr ⟨g, hg, rfl⟩, h1, h2, h3⟩
  · rw [hpwarn, hgp, pruneGroupItems_warn]
    constructor
    · rintro ⟨g0, hg0, h1, h2⟩
      rw [List.mem_map] at hg0
      obtain ⟨g, hg, hgg⟩ := hg0
      subst hgg
      exact ⟨g, hg, h1, h2⟩
    · rintro ⟨g, hg, h1, h2⟩
      exact ⟨(g.1, g.2.parent_molecule_refs),
        List.mem_map.mpr ⟨g, hg, rfl⟩, h1, h2⟩
  · intro x
    rw [hqitems, hgq, mem_wrap_query, pruneGroupItems_mem]
    constructor
    · rintro ⟨g0, hg0, h1, h2, h3⟩
      rw [List.mem_map] at hg0
      obtain ⟨g, hg, hgg⟩ := hg0
      subst hgg
      exact ⟨g, hg, h1, h2, h3⟩
    · rintro ⟨g, hg, h1, h2, h3⟩
      exact ⟨(g.1, g.2.query_match_refs),
        List.mem_map.mpr ⟨g, hg, rfl⟩, h1, h2, h3⟩
  · rw [hqwarn, hgq, pruneGroupItems_warn]
    constructor
    · rintro ⟨g0, hg0, h1, h2⟩
      rw [List.mem_map] at hg0
      obtain ⟨g, hg, hgg⟩ := hg0
      subst hgg
      exact ⟨g, hg, h1, h2⟩
    · rintro ⟨g, hg, h1, h2⟩
      exact ⟨(g.1, g.2.query_match_refs),
        List.mem_map.mpr ⟨g, hg, rfl⟩, h1, h2⟩

theorem pred_ite {P : Store → Prop} {f : Store → Store}
    (hf : ∀ u, P u → P (f u)) (b : Bool) (u : Store) (h : P u) :
    P (if b then f u else u) := by
  cases b
  · exact h
  · exact hf u h

theorem mem_filterRecs_sub {α : Type} {c : Coll α} {p : Nat → α → Bool} :
    ∀ x ∈ (c.filterRecs p).items, x ∈ c.items :=
  fun _ hx => (List.mem_filter.mp hx).1

theorem mem_keepKeys_sub {α : Type} {c : Coll α} {refs : List Nat} :
    ∀ x ∈ (c.keepKeys refs).items, x ∈ c.items :=
  fun _ hx => (List.mem_filter.mp hx).1

theorem mem_mapRecs {α : Type} {c : Coll α} {g : α → α} {x : Nat × α} :
    x ∈ (c.mapRecs g).items ↔ ∃ y ∈ c.items, x = (y.1, g y.2) := by
  unfold Coll.mapRecs
  rw [List.mem_map]
  constructor
  · rintro ⟨y, hy, he⟩
    exact ⟨y, hy, he.symm⟩
  · rintro ⟨y, hy, he⟩
    exact ⟨y, hy, he.symm⟩

theorem hasKey_keepKeys_of {α : Type} {c : Coll α} {refs : List Nat}
    {k : Nat} (hk : hasKey c.items k = true) (hr : memB k refs = true) :
    hasKey (c.keepKeys refs).items k = true := by
  rw [hasKey_iff] at hk ⊢
  obtain ⟨a, ha⟩ := hk
  exact ⟨a, List.mem_filter.mpr ⟨ha, hr⟩⟩

theorem pepOk_of {v u : Store}
    (hm : ∀ x ∈ v.identified_peptides.items, x ∈ u.identified_peptides.items)
    (hp : v.parent_molecules = u.parent_molecules)
    (h : PepMatchesOk u) : PepMatchesOk v := by
  intro x hx pm hpm
  rw [hp]
  exact h x (hm x hx) pm hpm

theorem oliOk_of {v u : Store}
    (hm : ∀ x ∈ v.identified_oligos.items, x ∈ u.identified_oligos.items)
    (hp : v.parent_molecules = u.parent_molecules)
    (h : OliMatchesOk u) : OliMatchesOk v := by
  intro x hx pm hpm
  rw [hp]
  exact h x (hm x hx) pm hpm

theorem molResolves_congr {v u : Store}
    (hp : v.identified_peptides = u.identified_peptides)
    (hc : v.identified_compounds = u.identified_compounds)
    (ho : v.identified_oligos = u.identified_oligos)
    (r : IdentifiedMoleculeRef) : molResolves v r = molResolves u r := by
  cases r
  · unfold molResolves
    rw [hp]
  · unfold molResolves
    rw [hc]
  · unfold molResolves
    rw [ho]

theorem matchMolOk_of {v u : Store}
    (hm : ∀ x ∈ v.query_matches.items, x ∈ u.query_matches.items)
    (hp : v.identified_peptides = u.identified_peptides)
    (hc : v.identified_compounds = u.identified_compounds)
    (ho : v.identified_oligos = u.identified_oligos)
    (h : MatchMolOk u) : MatchMolOk v := by
  intro x hx
  rw [molResolves_congr hp hc ho]
  exact h x (hm x hx)

theorem matchQueryOk_of {v u : Store}
    (hm : ∀ x ∈ v.query_matches.items, x ∈ u.query_matches.items)
    (hq : v.data_queries = u.data_queries)
    (h : MatchQueryOk u) : MatchQueryOk v := by
  intro x hx
  rw [hq]
  exact h x (hm x hx)

theorem pepOk_pass2 (u : Store) :
    PepMatchesOk (removeDanglingParentMatches u) := by
  intro x hx pm hpm
  have hx' : x ∈ (u.identified_peptides.mapRecs (fun r =>
      { r with parent_matches := r.parent_matches.filter (fun y => hasKey u.parent_molecules.items y.1) })).items := hx
  rw [mem_mapRecs] at hx'
  obtain ⟨y, _, he⟩ := hx'
  have hpm' : pm ∈ y.2.parent_matches.filter
      (fun z => hasKey u.parent_molecules.items z.1) := by
    have h2 : x.2.parent_matches = y.2.parent_matches.filter
        (fun z => hasKey u.parent_molecules.items z.1) :=
      congrArg (fun t => t.2.parent_matches) he
    rwa [h2] at hpm
  exact (List.mem_filter.mp hpm').2

theorem oliOk_pass2 (u : Store) :
    OliMatchesOk (removeDanglingParentMatches u) := by
  intro x hx pm hpm
  have hx' : x ∈ (u.identified_oligos.mapRecs (fun r =>
      { r with parent_matches := r.parent_matches.filter (fun y => hasKey u.parent_molecules.items y.1) })).items := hx
  rw [mem_mapRecs] at hx'
  obtain ⟨y, _, he⟩ := hx'
  have hpm' : pm ∈ y.2.parent_matches.filter
      (fun z => hasKey u.parent_molecules.items z.1) := by
    have h2 : x.2.parent_matches = y.2.parent_matches.filter
        (fun z => hasKey u.parent_molecules.items z.1) :=
      congrArg (fun t => t.2.parent_matches) he
    rwa [h2] at hpm
  exact (List.mem_filter.mp hpm').2

theorem matchMolOk_pass4 (u : Store) :
    MatchMolOk (removeDanglingQueryMatches u) := by
  intro x hx
  have hx' : x ∈ u.query_matches.items.filter
      (fun y => molResolves u y.2.identified_molecule_ref) := hx
  have := (List.mem_filter.mp hx').2
  rwa [molResolves_congr rfl rfl rfl]

theorem inv_pass6 (u : Store)
    (hpep : PepMatchesOk u) (holi : OliMatchesOk u) (hmol : MatchMolOk u)
    (hq : MatchQueryOk u) :
    PepMatchesOk (pruneByQueryMatches u) ∧
    OliMatchesOk (pruneByQueryMatches u) ∧
    MatchMolOk (pruneByQueryMatches u) ∧
    MatchQueryOk (pruneByQueryMatches u) := by
  refine ⟨pepOk_of mem_keepKeys_sub rfl hpep,
    oliOk_of mem_keepKeys_sub rfl holi, ?_, ?_⟩
  · intro x hx
    have hx' : x ∈ u.query_matches.items := hx
    have hr := hmol x hx'
    rcases htag : x.2.identified_molecule_ref with h | h | h
    · rw [htag] at hr
      have hmem : memB h (u.query_matches.items.filterMap (fun m =>
          match m.2.identified_molecule_ref with
          | .pep k => some k
          | _ => none)) = true := by
        rw [memB_iff, List.mem_filterMap]
        exact ⟨x, hx', by rw [htag]⟩
      show molResolves (pruneByQueryMatches u) (.pep h) = true
      exact hasKey_keepKeys_of hr hmem
    · rw [htag] at hr
      have hmem : memB h (u.query_matches.items.filterMap (fun m =>
          match m.2.identified_molecule_ref with
          | .cmp k => some k
          | _ => none)) = true := by
        rw [memB_iff, List.mem_filterMap]
        exact ⟨x, hx', by rw [htag]⟩
      show molResolves (pruneByQueryMatches u) (.cmp h) = true
      exact hasKey_keepKeys_of hr hmem
    · rw [htag] at hr
      have hmem : memB h (u.query_matches.items.filterMap (fun m =>
          match m.2.identified_molecule_ref with
          | .oli k => some k
          | _ => none)) = true := by
        rw [memB_iff, List.mem_filterMap]
        exact ⟨x, hx', by rw [htag]⟩
      show molResolves (pruneByQueryMatches u) (.oli h) = true
      exact hasKey_keepKeys_of hr hmem
  · intro x hx
    have hx' : x ∈ u.query_matches.items := hx
    have hmem : memB x.2.data_query_ref
        (u.query_matches.items.map (fun m => m.2.data_query_ref)) = true := by
      rw [memB_iff, List.mem_map]
      exact ⟨x, hx', rfl⟩
    exact hasKey_keepKeys_of (hq x hx') hmem

theorem inv_pass7 (u : Store)
    (hpep : PepMatchesOk u) (holi : OliMatchesOk u) :
    PepMatchesOk (pruneParentsByIdentified u) ∧
    OliMatchesOk (pruneParentsByIdentified u) := by
  constructor
  · intro x hx pm hpm
    have hx' : x ∈ u.identified_peptides.items := hx
    have hmem : memB pm.1
        (u.identified_peptides.items.flatMap
          (fun y => y.2.parent_matches.map Prod.fst) ++
        u.identified_oligos.items.flatMap
          (fun y => y.2.parent_matches.map Prod.fst)) = true := by
      rw [memB_iff, List.mem_append]
      left
      rw [List.mem_flatMap]
      exact ⟨x, hx', List.mem_map.mpr ⟨pm, hpm, rfl⟩⟩
    exact hasKey_keepKeys_of (hpep x hx' pm hpm) hmem
  · intro x hx pm hpm
    have hx' : x ∈ u.identified_oligos.items := hx
    have hmem : memB pm.1
        (u.identified_peptides.items.flatMap
          (fun y => y.2.parent_matches.map Prod.fst) ++
        u.identified_oligos.items.flatMap
          (fun y => y.2.parent_matches.map Prod.fst)) = true := by
      rw [memB_iff, List.mem_append]
      right
      rw [List.mem_flatMap]
      exact ⟨x, hx', List.mem_map.mpr ⟨pm, hpm, rfl⟩⟩
    exact hasKey_keepKeys_of (holi x hx' pm hpm) hmem

theorem parentGroupsOk_pass8 (u : Store) :
    ParentGroupsOk (pruneParentGroups u).1 := by
  intro x hx h hh
  have hx' : x ∈ (pruneGroupItems
      (fun k => hasKey u.parent_molecules.items k)
      (u.parent_molecule_groups.items.map
        (fun g => (g.1, g.2.parent_molecule_refs)))).1.map
      (fun g => ((g.1 : Nat), (⟨g.2⟩ : ParentMoleculeGroup))) := hx
  rw [mem_wrap_parent, pruneGroupItems_mem] at hx'
  obtain ⟨g, _, _, h2, _⟩ := hx'
  have h2' : x.2.parent_molecule_refs = g.2.filter
      (fun k => hasKey u.parent_molecules.items k) := h2
  rw [h2'] at hh
  exact (List.mem_filter.mp hh).2

theorem matchGroupsOk_pass9 (u : Store) :
    MatchGroupsOk (pruneQueryMatchGroups u).1 := by
  intro x hx h hh
  have hx' : x ∈ (pruneGroupItems
      (fun k => hasKey u.query_matches.items k)
      (u.query_match_groups.items.map
        (fun g => (g.1, g.2.query_match_refs)))).1.map
      (fun g => ((g.1 : Nat), (⟨g.2⟩ : QueryMatchGroup))) := hx
  rw [mem_wrap_query, pruneGroupItems_mem] at hx'
  obtain ⟨g, _, _, h2, _⟩ := hx'
  have h2' : x.2.query_match_refs = g.2.filter
      (fun k => hasKey u.query_matches.items k) := h2
  rw [h2'] at hh
  exact (List.mem_filter.mp hh).2

theorem stage1 (b : Bool) (s : Store) (h : MatchQueryOk s) :
    MatchQueryOk (if b then pruneParentsByGroups s else s) :=
  pred_ite (f := pruneParentsByGroups)
    (fun u hu => matchQueryOk_of (fun x hx => hx) rfl hu) b s h

theorem stage2 (u : Store) (h : MatchQueryOk u) :
    PepMatchesOk (removeDanglingParentMatches u) ∧
    OliMatchesOk (removeDanglingParentMatches u) ∧
    MatchQueryOk (removeDanglingParentMatches u) :=
  ⟨pepOk_pass2 u, oliOk_pass2 u, matchQueryOk_of (fun x hx => hx) rfl h⟩

theorem stage3 (b : Bool) (u : Store)
    (h : PepMatchesOk u ∧ OliMatchesOk u ∧ MatchQueryOk u) :
    PepMatchesOk (if b then removeEmptyParentMatchMolecules u else u) ∧
    OliMatchesOk (if b then removeEmptyParentMatchMolecules u else u) ∧
    MatchQueryOk (if b then removeEmptyParentMatchMolecules u else u) :=
  pred_ite
    (P := fun v => PepMatchesOk v ∧ OliMatchesOk v ∧ MatchQueryOk v)
    (f := removeEmptyParentMatchMolecules)
    (fun v hv => ⟨pepOk_of (fun x hx => mem_filterRecs_sub x hx) rfl hv.1,
      oliOk_of (fun x hx => mem_filterRecs_sub x hx) rfl hv.2.1,
      matchQueryOk_of (fun x hx => hx) rfl hv.2.2⟩) b u h

theorem stage4 (u : Store)
    (h : PepMatchesOk u ∧ OliMatchesOk u ∧ MatchQueryOk u) :
    PepMatchesOk (removeDanglingQueryMatches u) ∧
    OliMatchesOk (removeDanglingQueryMatches u) ∧
    MatchMolOk (removeDanglingQueryMatches u) ∧
    MatchQueryOk (removeDanglingQueryMatches u) :=
  ⟨h.1, h.2.1, matchMolOk_pass4 u,
    matchQueryOk_of (fun x hx => mem_filterRecs_sub x hx) rfl h.2.2⟩

theorem stage5 (b : Bool) (u : Store)
    (h : PepMatchesOk u ∧ OliMatchesOk u ∧ MatchMolOk u ∧ MatchQueryOk u) :
    PepMatchesOk (if b then pruneMatchesByGroups u else u) ∧
    OliMatchesOk (if b then pruneMatchesByGroups u else u) ∧
    MatchMolOk (if b then pruneMatchesByGroups u else u) ∧
    MatchQueryOk (if b then pruneMatchesByGroups u else u) :=
  pred_ite
    (P := fun v => PepMatchesOk v ∧ OliMatchesOk v ∧ MatchMolOk v ∧
      MatchQueryOk v)
    (f := pruneMatchesByGroups)
    (fun v hv => ⟨hv.1, hv.2.1,
      matchMolOk_of (fun x hx => mem_keepKeys_sub x hx) rfl rfl rfl hv.2.2.1,
      matchQueryOk_of (fun x hx => mem_keepKeys_sub x hx) rfl hv.2.2.2⟩)
    b u h

theorem stage6 (b : Bool) (u : Store)
    (h : PepMatchesOk u ∧ OliMatchesOk u ∧ MatchMolOk u ∧ MatchQueryOk u) :
    PepMatchesOk (if b then pruneByQueryMatches u else u) ∧
    OliMatchesOk (if b then pruneByQueryMatches u else u) ∧
    MatchMolOk (if b then pruneByQueryMatches u else u) ∧
    MatchQueryOk (if b then pruneByQueryMatches u else u) :=
  pred_ite
    (P := fun v => PepMatchesOk v ∧ OliMatchesOk v ∧ MatchMolOk v ∧
      MatchQueryOk v)
    (f := pruneByQueryMatches)
    (fun v hv => inv_pass6 v hv.1 hv.2.1 hv.2.2.1 hv.2.2.2) b u h

theorem stage7 (b : Bool) (u : Store)
    (h : PepMatchesOk u ∧ OliMatchesOk u ∧ MatchMolOk u ∧ MatchQueryOk u) :
    PepMatchesOk (if b then pruneParentsByIdentified u else u) ∧
    OliMatchesOk (if b then pruneParentsByIdentified u else u) ∧
    MatchMolOk (if b then pruneParentsByIdentified u else u) ∧
    MatchQueryOk (if b then pruneParentsByIdentified u else u) :=
  pred_ite
    (P := fun v => PepMatchesOk v ∧ OliMatchesOk v ∧ MatchMolOk v ∧
      MatchQueryOk v)
    (f := pruneParentsByIdentified)
    (fun v hv => ⟨(inv_pass7 v hv.1 hv.2.1).1, (inv_pass7 v hv.1 hv.2.1).2,
      hv.2.2.1, hv.2.2.2⟩) b u h

theorem stage89 (u : Store)
    (h : PepMatchesOk u ∧ OliMatchesOk u ∧ MatchMolOk u ∧ MatchQueryOk u) :
    Consistent (pruneQueryMatchGroups (pruneParentGroups u).1).1 :=
  ⟨h.1, h.2.1, h.2.2.1, h.2.2.2, parentGroupsOk_pass8 u,
    matchGroupsOk_pass9 (pruneParentGroups u).1⟩

/-- C3 (amended): for every flag combination, if in the starting store every
query match's data-query reference resolves, then after `cleanup` every
handle stored inside any surviving record — parent matches of
peptides/oligos, identified-molecule and data-query references of query
matches, and the member sets of both group collections — resolves to a
live record in its target collection. -/
theorem cleanup_no_dangling :
    ∀ (s : Store) (b1 b2 b3 b4 b5 : Bool),
    MatchQueryOk s → Consistent (cleanup s b1 b2 b3 b4 b5).1 := by
  intro s b1 b2 b3 b4 b5 hq0
  exact stage89 _ (stage7 b2 _ (stage6 b1 _ (stage5 b5 _ (stage4 _
    (stage3 b3 _ (stage2 _ (stage1 b4 s hq0)))))))

/-- The store refuting the unamended C3: a query match (handle 0) whose
identified-molecule reference resolves (compound 0) but whose data-query
handle 5 resolves nowhere. -/
def c3Store : Store :=
  { emptyStore with
    identified_compounds := ⟨[(0, ⟨"c"⟩)], 1⟩,
    query_matches := ⟨[(0, ⟨IdentifiedMoleculeRef.cmp 0, 5, []⟩)], 1⟩ }

/-- C3 counterexample: on `c3Store` (all flags false), the query match with
the dangling data-query handle 5 survives `cleanup`, and handle 5 still
resolves nowhere afterwards — cleanup does not repair this reference kind,
so the claim fails for arbitrary starting states. -/
theorem cleanup_dangling_counterexample :
    (cleanup c3Store false false false false false).1.query_matches.items =
      [(0, ⟨IdentifiedMoleculeRef.cmp 0, 5, []⟩)] ∧
    hasKey (cleanup c3Store false false false false
      false).1.data_queries.items 5 = false := by
  exact ⟨rfl, rfl⟩

/-- Witness for the amended C3: a store with one data query, one identified
compound and one query match referencing both satisfies the hypothesis, and
the cleaned store is fully consistent. -/
theorem cleanup_no_dangling_witness :
    Consistent (cleanup
      { emptyStore with
        data_queries := ⟨[(0, ⟨"q1", none⟩)], 1⟩,
        identified_compounds := ⟨[(0, ⟨"c1"⟩)], 1⟩,
        query_matches := ⟨[(0, ⟨IdentifiedMoleculeRef.cmp 0, 0, []⟩)], 1⟩ }
      true true true true true).1 :=
  cleanup_no_dangling _ true true true true true (by
    intro x hx
    rw [List.mem_singleton] at hx
    subst hx
    rfl)

/-- One entry of the query-match collection, as iterated by
`getBestMatchPerQuery`. -/
abbrev QMItem : Type := Nat × MoleculeQueryMatch

/-- No scored element of `cl` has a strictly better score than `r`. -/
def noBetterIn (hb : Bool) (sref : Nat) (cl : List QMItem) (r : QMItem) :
    Bool :=
  cl.all (fun q => !(q.2.getScore sref).2 ||
    !(isBetterScore (q.2.getScore sref).1 (r.2.getScore sref).1 hb))

/-- `r` is a best-scoring element of the candidate list `cl`: it has a score
for the requested score type and no element of `cl` beats it strictly. -/
def goodB (hb : Bool) (sref : Nat) (cl : List QMItem) (r : QMItem) : Bool :=
  (r.2.getScore sref).2 && noBetterIn hb sref cl r

/-- The spec-side selection for one contiguous query run: the first-seen
match attaining the strictly best score among the scored matches of the
run; `none` when no match of the run has a score. -/
def bestOfRun (hb : Bool) (sref : Nat) (run : List QMItem) : Option QMItem :=
  run.find? (goodB hb sref run)

/-- The spec-side output over a list of query runs: per run, the handle of
its best match, omitting runs without any scored match. -/
def bestPerRuns (hb : Bool) (sref : Nat) (runs : List (List QMItem)) :
    List Nat :=
  runs.filterMap (fun run => (bestOfRun hb sref run).map Prod.fst)

/-- The within-run step of the linear pass (the `else` branch of the loop
body): a scored candidate replaces the best-so-far when there is none yet or
when it is strictly better. -/
def inStep (hb : Bool) (sref : Nat) (st : (ℚ × Bool) × QMItem)
    (r : QMItem) : (ℚ × Bool) × QMItem :=
  let cs := r.2.getScore sref
  if cs.2 && (!st.1.2 || isBetterScore cs.1 st.1.1 hb) then (cs, r) else st

theorem better_irrefl (hb : Bool) (a : ℚ) : isBetterScore a a hb = false := by
  cases hb <;> simp [isBetterScore]

theorem notBetter_trans (hb : Bool) {a b c : ℚ}
    (h1 : isBetterScore a b hb = false) (h2 : isBetterScore b c hb = false) :
    isBetterScore a c hb = false := by
  cases hb <;> simp [isBetterScore] at h1 h2 ⊢ <;> linarith

theorem better_notBetter_notBetter (hb : Bool) {q w r : ℚ}
    (h1 : isBetterScore q w hb = false) (h2 : isBetterScore r w hb = true) :
    isBetterScore q r hb = false := by
  cases hb <;> simp [isBetterScore] at h1 h2 ⊢ <;> linarith

theorem notBetter_antisymm (hb : Bool) {a b : ℚ}
    (h1 : isBetterScore a b hb = false) (h2 : isBetterScore b a hb = false) :
    a = b := by
  cases hb <;> simp [isBetterScore] at h1 h2 <;> linarith

theorem find?_congr_iff {α : Type} (l : List α) (p q : α → Bool)
    (h : ∀ x ∈ l, (p x = true ↔ q x = true)) : l.find? p = l.find? q := by
  induction l with
  | nil => rfl
  | cons a t ih =>
    by_cases hp : p a = true
    · rw [List.find?_cons_of_pos t hp,
        List.find?_cons_of_pos t ((h a (List.mem_cons_self a t)).mp hp)]
    · rw [List.find?_cons_of_neg t hp,
        List.find?_cons_of_neg t (fun hq =>
          hp ((h a (List.mem_cons_self a t)).mpr hq)),
        ih (fun x hx => h x (List.mem_cons_of_mem a hx))]

theorem exists_good (hb : Bool) (sref : Nat) :
    ∀ (cl : List QMItem) (r : QMItem), r ∈ cl →
    (r.2.getScore sref).2 = true →
    ∃ w ∈ cl, goodB hb sref cl w = true := by
  intro cl
  induction cl with
  | nil => intro r hr; cases hr
  | cons x t ih =>
    intro r hr hscr
    by_cases hst : ∃ r' ∈ t, (r'.2.getScore sref).2 = true
    · obtain ⟨r', hr', hsr'⟩ := hst
      obtain ⟨w, hw, hgw⟩ := ih r' hr' hsr'
      rw [goodB, Bool.and_eq_true] at hgw
      by_cases hsx : (x.2.getScore sref).2 = true
      · by_cases hbx : isBetterScore (x.2.getScore sref).1
            (w.2.getScore sref).1 hb = true
        · refine ⟨x, List.mem_cons_self x t, ?_⟩
          rw [goodB, Bool.and_eq_true]
          refine ⟨hsx, ?_⟩
          rw [noBetterIn, List.all_cons]
          rw [Bool.and_eq_true]
          constructor
          · rw [better_irrefl]
            simp
          · rw [List.all_eq_true]
            intro q hq
            by_cases hsq : (q.2.getScore sref).2 = true
            · have hqw : isBetterScore (q.2.getScore sref).1
                  (w.2.getScore sref).1 hb = false := by
                have := hgw.2
                rw [noBetterIn, List.all_eq_true] at this
                have h2 := this q hq
                rw [hsq] at h2
                simpa using h2
              rw [better_notBetter_notBetter hb hqw hbx]
              simp
            · rw [Bool.not_eq_true] at hsq
              rw [hsq]
              simp
        · refine ⟨w, List.mem_cons_of_mem x hw, ?_⟩
          rw [goodB, Bool.and_eq_true]
          refine ⟨hgw.1, ?_⟩
          rw [noBetterIn, List.all_cons, Bool.and_eq_true]
          constructor
          · rw [Bool.not_eq_true] at hbx
            rw [hbx]
            simp
          · exact hgw.2
      · refine ⟨w, List.mem_cons_of_mem x hw, ?_⟩
        rw [goodB, Bool.and_eq_true]
        refine ⟨hgw.1, ?_⟩
        rw [noBetterIn, List.all_cons, Bool.and_eq_true]
        constructor
        · rw [Bool.not_eq_true] at hsx
          rw [hsx]
          simp
        · exact hgw.2
    · have hxr : r = x := by
        rcases List.mem_cons.mp hr with he | hm
        · exact he
        · exact absurd ⟨r, hm, hscr⟩ hst
      subst hxr
      refine ⟨r, List.mem_cons_self r t, ?_⟩
      rw [goodB, Bool.and_eq_true]
      refine ⟨hscr, ?_⟩
      rw [noBetterIn, List.all_cons, Bool.and_eq_true]
      constructor
      · rw [better_irrefl]
        simp
      · rw [List.all_eq_true]
        intro q hq
        have : ¬ (q.2.getScore sref).2 = true := fun hc => hst ⟨q, hq, hc⟩
        rw [Bool.not_eq_true] at this
        rw [this]
        simp

theorem goodB_cons_iff (hb : Bool) (sref : Nat) (x : QMItem)
    (cl : List QMItem) (w : QMItem) :
    goodB hb sref (x :: cl) w = true ↔
      (goodB hb sref cl w = true ∧
        (!(x.2.getScore sref).2 ||
          !(isBetterScore (x.2.getScore sref).1
            (w.2.getScore sref).1 hb)) = true) := by
  simp only [goodB, noBetterIn, List.all_cons, Bool.and_eq_true]
  tauto

theorem better_trans_flip (hb : Bool) {r0 r w : ℚ}
    (h1 : isBetterScore r r0 hb = true) (h2 : isBetterScore r w hb = false) :
    isBetterScore r0 w hb = false := by
  cases hb <;> simp [isBetterScore] at h1 h2 ⊢ <;> linarith

theorem goodB_score_congr (hb : Bool) (sref : Nat) (cl : List QMItem)
    {a b : QMItem} (hs : a.2.getScore sref = b.2.getScore sref)
    (h : goodB hb sref cl a = true) : goodB hb sref cl b = true := by
  rw [goodB, Bool.and_eq_true] at h ⊢
  refine ⟨by rw [← hs]; exact h.1, ?_⟩
  rw [noBetterIn, List.all_eq_true]
  intro q hq
  have := h.2
  rw [noBetterIn, List.all_eq_true] at this
  have h2 := this q hq
  rwa [hs] at h2

theorem foldl_inStep_char (hb : Bool) (sref : Nat) :
    ∀ (l : List QMItem) (r0 : QMItem),
    l.foldl (inStep hb sref) (r0.2.getScore sref, r0) =
      match (r0 :: l).find? (goodB hb sref (r0 :: l)) with
      | some w => (w.2.getScore sref, w)
      | none => (r0.2.getScore sref, r0) := by
  intro l
  induction l with
  | nil =>
    intro r0
    rw [List.foldl_nil]
    by_cases hs : (r0.2.getScore sref).2 = true
    · have hg : goodB hb sref [r0] r0 = true := by
        rw [goodB, Bool.and_eq_true]
        refine ⟨hs, ?_⟩
        rw [noBetterIn, List.all_cons, better_irrefl]
        simp
      rw [List.find?_cons_of_pos _ hg]
    · have hg : ¬ goodB hb sref [r0] r0 = true := by
        rw [goodB, Bool.and_eq_true]
        intro hc
        exact hs hc.1
      rw [List.find?_cons_of_neg _ hg, List.find?_nil]
  | cons r l' ih =>
    intro r0
    rw [List.foldl_cons]
    by_cases hF : ((r.2.getScore sref).2 &&
        (!(r0.2.getScore sref).2 ||
          isBetterScore (r.2.getScore sref).1
            (r0.2.getScore sref).1 hb)) = true
    · have hstep : inStep hb sref (r0.2.getScore sref, r0) r =
          (r.2.getScore sref, r) := by
        simp only [inStep]
        rw [if_pos hF]
      rw [hstep, ih r]
      have hF' := hF
      rw [Bool.and_eq_true, Bool.or_eq_true] at hF'
      obtain ⟨hsr, hor⟩ := hF'
      have hA : ¬ goodB hb sref (r0 :: r :: l') r0 = true := by
        intro hg
        rw [goodB, Bool.and_eq_true] at hg
        rcases hor with hns | hbr
        · rw [Bool.not_eq_true'] at hns
          rw [hg.1] at hns
          simp at hns
        · have hcl := hg.2
          rw [noBetterIn, List.all_eq_true] at hcl
          have hclr := hcl r (List.mem_cons_of_mem r0 (List.mem_cons_self r l'))
          rw [hsr] at hclr
          simp only [Bool.not_true, Bool.false_or] at hclr
          rw [Bool.not_eq_true'] at hclr
          rw [hclr] at hbr
          simp at hbr
      have hB : ∀ w ∈ r :: l',
          (goodB hb sref (r0 :: r :: l') w = true ↔
            goodB hb sref (r :: l') w = true) := by
        intro w hw
        rw [goodB_cons_iff hb sref r0 (r :: l') w]
        constructor
        · intro hg
          exact hg.1
        · intro hg
          refine ⟨hg, ?_⟩
          rcases hbs : (r0.2.getScore sref).2 with _ | _
          · simp
          · rcases hor with hns | hbr
            · rw [Bool.not_eq_true'] at hns
              rw [hns] at hbs
              simp at hbs
            · have hclr : (!(r.2.getScore sref).2 ||
                  !(isBetterScore (r.2.getScore sref).1
                    (w.2.getScore sref).1 hb)) = true := by
                have hgw := hg
                rw [goodB, Bool.and_eq_true, noBetterIn,
                  List.all_eq_true] at hgw
                exact hgw.2 r (List.mem_cons_self r l')
              rw [hsr] at hclr
              simp only [Bool.not_true, Bool.false_or] at hclr
              rw [Bool.not_eq_true'] at hclr
              rw [better_trans_flip hb hbr hclr]
              simp
      rw [List.find?_cons_of_neg _ hA, find?_congr_iff _ _ _ hB]
      rcases hfind : (r :: l').find? (goodB hb sref (r :: l')) with _ | w
      · exfalso
        obtain ⟨w, hw, hgw⟩ :=
          exists_good hb sref (r :: l') r (List.mem_cons_self r l') hsr
        have hsome := List.find?_isSome.mpr ⟨w, hw, hgw⟩
        rw [hfind] at hsome
        simp at hsome
      · rfl
    · have hstep : inStep hb sref (r0.2.getScore sref, r0) r =
          (r0.2.getScore sref, r0) := by
        simp only [inStep]
        rw [if_neg hF]
      rw [hstep, ih r0]
      have hnF := hF
      rw [Bool.and_eq_true, not_and_or] at hnF
      have hkey : (r.2.getScore sref).2 = false ∨
          ((r0.2.getScore sref).2 = true ∧
            isBetterScore (r.2.getScore sref).1
              (r0.2.getScore sref).1 hb = false) := by
        rcases hnF with hns | hno
        · left
          rwa [Bool.not_eq_true] at hns
        · right
          rw [Bool.or_eq_true, not_or] at hno
          obtain ⟨h1, h2⟩ := hno
          rw [Bool.not_eq_true] at h2
          rw [Bool.not_eq_true', Bool.not_eq_false] at h1
          exact ⟨h1, h2⟩
      have hclause : (!(r.2.getScore sref).2 ||
          !(isBetterScore (r.2.getScore sref).1
            (r0.2.getScore sref).1 hb)) = true := by
        rcases hkey with hns | ⟨_, hnb⟩
        · rw [hns]
          simp
        · rw [hnb]
          simp
      have hc : goodB hb sref (r0 :: r :: l') r0 = true ↔
          goodB hb sref (r0 :: l') r0 = true := by
        rw [goodB_cons_iff hb sref r0 (r :: l') r0,
          goodB_cons_iff hb sref r l' r0, goodB_cons_iff hb sref r0 l' r0]
        constructor
        · rintro ⟨⟨hg, _⟩, h3⟩
          exact ⟨hg, h3⟩
        · rintro ⟨hg, h3⟩
          exact ⟨⟨hg, hclause⟩, h3⟩
      by_cases hg0 : goodB hb sref (r0 :: l') r0 = true
      · rw [List.find?_cons_of_pos _ hg0,
          List.find?_cons_of_pos _ (hc.mpr hg0)]
      · have hg0' : ¬ goodB hb sref (r0 :: r :: l') r0 = true :=
          fun hx => hg0 (hc.mp hx)
        rw [List.find?_cons_of_neg _ hg0, List.find?_cons_of_neg _ hg0']
        have he : ¬ goodB hb sref (r0 :: r :: l') r = true := by
          intro hg
          rcases hkey with hns | ⟨hs0, hnb⟩
          · rw [goodB, Bool.and_eq_true] at hg
            rw [hg.1] at hns
            cases hns
          · have hcl0 : (!(r0.2.getScore sref).2 ||
                !(isBetterScore (r0.2.getScore sref).1
                  (r.2.getScore sref).1 hb)) = true := by
              have := hg
              rw [goodB, Bool.and_eq_true, noBetterIn,
                List.all_eq_true] at this
              exact this.2 r0 (List.mem_cons_self r0 (r :: l'))
            rw [hs0] at hcl0
            simp only [Bool.not_true, Bool.false_or] at hcl0
            rw [Bool.not_eq_true'] at hcl0
            have heqs : (r.2.getScore sref).1 = (r0.2.getScore sref).1 :=
              notBetter_antisymm hb hnb hcl0
            have hseq : r.2.getScore sref = r0.2.getScore sref := by
              have hs1 : (r.2.getScore sref).2 = true := by
                rw [goodB, Bool.and_eq_true] at hg
                exact hg.1
              have := Prod.ext heqs (by rw [hs1, hs0])
              rw [← Prod.mk.eta (p := r.2.getScore sref),
                ← Prod.mk.eta (p := r0.2.getScore sref)]
              exact this
            exact hg0' (goodB_score_congr hb sref _ hseq hg)
        rw [List.find?_cons_of_neg _ he]
        have hff : l'.find? (goodB hb sref (r0 :: r :: l')) =
            l'.find? (goodB hb sref (r0 :: l')) := by
          refine find?_congr_iff _ _ _ ?_
          intro w hw
          rw [goodB_cons_iff hb sref r0 (r :: l') w,
            goodB_cons_iff hb sref r l' w, goodB_cons_iff hb sref r0 l' w]
          constructor
          · rintro ⟨⟨hg, _⟩, h3⟩
            exact ⟨hg, h3⟩
          · rintro ⟨hg, h3⟩
            refine ⟨⟨hg, ?_⟩, h3⟩
            rcases hkey with hns | ⟨hs0, hnb⟩
            · rw [hns]
              simp
            · have h3' := h3
              rw [hs0] at h3'
              simp only [Bool.not_true, Bool.false_or] at h3'
              rw [Bool.not_eq_true'] at h3'
              rw [notBetter_trans hb hnb h3']
              simp
        rw [hff]

theorem bestLoop_seg (hb : Bool) (sref : Nat) :
    ∀ (seg tail : List QMItem) (bs : ℚ × Bool) (b : QMItem),
    (∀ x ∈ seg, x.2.data_query_ref = b.2.data_query_ref) →
    bestLoop hb sref (seg ++ tail) bs (some b) =
      bestLoop hb sref tail (seg.foldl (inStep hb sref) (bs, b)).1
        (some (seg.foldl (inStep hb sref) (bs, b)).2) := by
  intro seg
  induction seg with
  | nil =>
    intro tail bs b h
    rfl
  | cons x seg' ih =>
    intro tail bs b h
    have hq : x.2.data_query_ref = b.2.data_query_ref :=
      h x (List.mem_cons_self x seg')
    rw [List.cons_append, List.foldl_cons]
    simp only [bestLoop]
    rw [if_neg (not_not_intro hq)]
    by_cases hcond : ((x.2.getScore sref).2 &&
        (!bs.2 || isBetterScore (x.2.getScore sref).1 bs.1 hb)) = true
    · rw [if_pos hcond]
      have hstep : inStep hb sref (bs, b) x = (x.2.getScore sref, x) := by
        simp only [inStep]
        rw [if_pos hcond]
      rw [hstep]
      exact ih tail (x.2.getScore sref) x
        (fun y hy => ((h y (List.mem_cons_of_mem x hy)).trans hq.symm))
    · rw [if_neg hcond]
      have hstep : inStep hb sref (bs, b) x = (bs, b) := by
        simp only [inStep]
        rw [if_neg hcond]
      rw [hstep]
      exact ih tail bs b (fun y hy => h y (List.mem_cons_of_mem x hy))

theorem scored_of_bestOfRun (hb : Bool) (sref : Nat) (run : List QMItem)
    (w : QMItem) (h : bestOfRun hb sref run = some w) :
    (w.2.getScore sref).2 = true := by
  rw [bestOfRun] at h
  have hg := List.find?_some h
  rw [goodB, Bool.and_eq_true] at hg
  exact hg.1

theorem mem_of_bestOfRun (hb : Bool) (sref : Nat) (run : List QMItem)
    (w : QMItem) (h : bestOfRun hb sref run = some w) : w ∈ run := by
  rw [bestOfRun] at h
  exact List.mem_of_find?_eq_some h

theorem bestOfRun_drop_unscored (hb : Bool) (sref : Nat) (y : QMItem)
    (run : List QMItem) (hy : (y.2.getScore sref).2 = false) :
    bestOfRun hb sref (y :: run) = bestOfRun hb sref run := by
  rw [bestOfRun, bestOfRun]
  have hng : ¬ goodB hb sref (y :: run) y = true := by
    rw [goodB, Bool.and_eq_true]
    intro hc
    rw [hy] at hc
    exact Bool.false_ne_true hc.1
  rw [List.find?_cons_of_neg _ hng]
  refine find?_congr_iff _ _ _ ?_
  intro w hw
  rw [goodB_cons_iff hb sref y run w]
  constructor
  · intro hg
    exact hg.1
  · intro hg
    refine ⟨hg, ?_⟩
    rw [hy]
    simp

theorem runNone (hb : Bool) (sref : Nat) :
    ∀ (run tail : List QMItem) (bs : ℚ × Bool), bs.2 = false →
    (∀ a ∈ run, ∀ c ∈ run, a.2.data_query_ref = c.2.data_query_ref) →
    bestLoop hb sref (run ++ tail) bs none =
      match bestOfRun hb sref run with
      | some w => bestLoop hb sref tail (w.2.getScore sref) (some w)
      | none => bestLoop hb sref tail bs none := by
  intro run
  induction run with
  | nil =>
    intro tail bs hbs hsq
    rfl
  | cons y run' ih =>
    intro tail bs hbs hsq
    rw [List.cons_append]
    simp only [bestLoop]
    by_cases hsy : (y.2.getScore sref).2 = true
    swap
    · have hsy' : (y.2.getScore sref).2 = false := by
        rwa [Bool.not_eq_true] at hsy
      have hcond : ¬ (((y.2.getScore sref).2 &&
          (!bs.2 || isBetterScore (y.2.getScore sref).1 bs.1 hb)) = true) := by
        rw [hsy']
        simp
      rw [if_neg hcond, bestOfRun_drop_unscored hb sref y run' hsy']
      exact ih tail bs hbs (fun a ha c hc =>
        hsq a (List.mem_cons_of_mem y ha) c (List.mem_cons_of_mem y hc))
    · have hcond : (((y.2.getScore sref).2 &&
          (!bs.2 || isBetterScore (y.2.getScore sref).1 bs.1 hb)) = true) := by
        rw [hsy, hbs]
        simp
      rw [if_pos hcond]
      have hseg := bestLoop_seg hb sref run' tail (y.2.getScore sref) y
        (fun x hx => hsq x (List.mem_cons_of_mem y hx) y
          (List.mem_cons_self y run'))
      rw [hseg, foldl_inStep_char hb sref run' y]
      rcases hfind : (y :: run').find? (goodB hb sref (y :: run')) with _ | w
      · exfalso
        obtain ⟨w, hw, hgw⟩ := exists_good hb sref (y :: run') y
          (List.mem_cons_self y run') hsy
        have hsome := List.find?_isSome.mpr ⟨w, hw, hgw⟩
        rw [hfind] at hsome
        simp at hsome
      · have hbr : bestOfRun hb sref (y :: run') = some w := hfind
        rw [hbr]

theorem coreSome (hb : Bool) (sref : Nat) :
    ∀ (runs : List (List QMItem)) (bs : ℚ × Bool) (b : QMItem),
    (∀ run ∈ runs, ∀ a ∈ run, ∀ c ∈ run,
      a.2.data_query_ref = c.2.data_query_ref) →
    (∀ run ∈ runs, ∀ x ∈ run, x.2.data_query_ref ≠ b.2.data_query_ref) →
    List.Pairwise (fun r1 r2 => ∀ a ∈ r1, ∀ c ∈ r2,
      a.2.data_query_ref ≠ c.2.data_query_ref) runs →
    bestLoop hb sref runs.join bs (some b) =
      (if bs.2 then [b.1] else []) ++ bestPerRuns hb sref runs := by
  intro runs
  induction runs with
  | nil =>
    intro bs b hsq hne hpw
    simp [List.join, bestLoop, bestPerRuns]
  | cons run runs' ih =>
    intro bs b hsq hne hpw
    rw [List.pairwise_cons] at hpw
    obtain ⟨hR, hpw'⟩ := hpw
    rcases run with _ | ⟨r0, rest⟩
    · show bestLoop hb sref ([] ++ runs'.join) bs (some b) = _
      rw [List.nil_append]
      have hbp : bestPerRuns hb sref ([] :: runs') =
          bestPerRuns hb sref runs' := by
        simp [bestPerRuns, bestOfRun]
      rw [hbp]
      exact ih bs b (fun r hr => hsq r (List.mem_cons_of_mem _ hr))
        (fun r hr => hne r (List.mem_cons_of_mem _ hr)) hpw'
    · show bestLoop hb sref ((r0 :: rest) ++ runs'.join) bs (some b) = _
      rw [List.cons_append]
      simp only [bestLoop]
      have hqne : r0.2.data_query_ref ≠ b.2.data_query_ref :=
        hne (r0 :: rest) (List.mem_cons_self _ _) r0 (List.mem_cons_self _ _)
      rw [if_pos hqne]
      have hseg := bestLoop_seg hb sref rest runs'.join
        (r0.2.getScore sref) r0
        (fun x hx => hsq (r0 :: rest) (List.mem_cons_self _ _) x
          (List.mem_cons_of_mem r0 hx) r0 (List.mem_cons_self r0 rest))
      rw [hseg, foldl_inStep_char hb sref rest r0]
      rcases hfind : (r0 :: rest).find? (goodB hb sref (r0 :: rest))
        with _ | w
      · dsimp only
        have hall := List.find?_eq_none.mp hfind
        have hs0 : (r0.2.getScore sref).2 = false := by
          by_contra hx
          rw [Bool.not_eq_false] at hx
          obtain ⟨w, hw, hgw⟩ := exists_good hb sref (r0 :: rest) r0
            (List.mem_cons_self r0 rest) hx
          exact (hall w hw) hgw
        have hihres := ih (r0.2.getScore sref) r0
          (fun r hr => hsq r (List.mem_cons_of_mem _ hr))
          (fun r hr x hx => (hR r hr r0 (List.mem_cons_self r0 rest) x hx).symm)
          hpw'
        rw [hihres, hs0]
        have hbp : bestPerRuns hb sref ((r0 :: rest) :: runs') =
            bestPerRuns hb sref runs' := by
          simp [bestPerRuns, bestOfRun, hfind]
        rw [hbp]
        simp
      · dsimp only
        have hw : w ∈ r0 :: rest := List.mem_of_find?_eq_some hfind
        have hgw := List.find?_some hfind
        have hsw : (w.2.getScore sref).2 = true := by
          rw [goodB, Bool.and_eq_true] at hgw
          exact hgw.1
        have hihres := ih (w.2.getScore sref) w
          (fun r hr => hsq r (List.mem_cons_of_mem _ hr))
          (fun r hr x hx => (hR r hr w hw x hx).symm)
          hpw'
        rw [hihres, hsw]
        have hbp : bestPerRuns hb sref ((r0 :: rest) :: runs') =
            w.1 :: bestPerRuns hb sref runs' := by
          simp [bestPerRuns, bestOfRun, hfind]
        rw [hbp]
        simp

theorem coreNone (hb : Bool) (sref : Nat) :
    ∀ (runs : List (List QMItem)) (bs : ℚ × Bool), bs.2 = false →
    (∀ run ∈ runs, ∀ a ∈ run, ∀ c ∈ run,
      a.2.data_query_ref = c.2.data_query_ref) →
    List.Pairwise (fun r1 r2 => ∀ a ∈ r1, ∀ c ∈ r2,
      a.2.data_query_ref ≠ c.2.data_query_ref) runs →
    bestLoop hb sref runs.join bs none = bestPerRuns hb sref runs := by
  intro runs
  induction runs with
  | nil =>
    intro bs hbs hsq hpw
    simp [List.join, bestLoop, bestPerRuns, hbs]
  | cons run runs' ih =>
    intro bs hbs hsq hpw
    rw [List.pairwise_cons] at hpw
    obtain ⟨hR, hpw'⟩ := hpw
    show bestLoop hb sref (run ++ runs'.join) bs none = _
    rw [runNone hb sref run runs'.join bs hbs
      (hsq run (List.mem_cons_self run runs'))]
    rcases hbor : bestOfRun hb sref run with _ | w
    · dsimp only
      rw [ih bs hbs (fun r hr => hsq r (List.mem_cons_of_mem _ hr)) hpw']
      have hbp : bestPerRuns hb sref (run :: runs') =
          bestPerRuns hb sref runs' := by
        simp [bestPerRuns, hbor]
      rw [hbp]
    · dsimp only
      have hw : w ∈ run := mem_of_bestOfRun hb sref run w hbor
      have hsw : (w.2.getScore sref).2 = true :=
        scored_of_bestOfRun hb sref run w hbor
      rw [coreSome hb sref runs' (w.2.getScore sref) w
        (fun r hr => hsq r (List.mem_cons_of_mem _ hr))
        (fun r hr x hx => (hR r hr w hw x hx).symm)
        hpw']
      rw [hsw]
      have hbp : bestPerRuns hb sref (run :: runs') =
          w.1 :: bestPerRuns hb sref runs' := by
        simp [bestPerRuns, hbor]
      rw [hbp]
      simp

/-- C5: on a store whose query-match collection is grouped by data-query
handle into contiguous runs (`runs`, constant `data_query_ref` within a run,
pairwise-distinct `data_query_ref` across runs), `getBestMatchPerQuery`
with a registered score type returns, per run, the handle of the first-seen
match whose score for that type is not strictly beaten under `higher_better`
by any match of the run (`bestPerRuns`/`bestOfRun`/`goodB`): strictly
greater wins when `higher_better`, strictly lesser otherwise, ties keep the
first-seen match, a match without a score for the type is never selected,
and a run whose matches all lack the score contributes nothing. -/
theorem getBestMatchPerQuery_runs (s : Store) (sref : Nat) (st : ScoreType)
    (runs : List (List QMItem))
    (hst : lookupRec s.score_types.items sref = some st)
    (hitems : s.query_matches.items = runs.join)
    (hsq : ∀ run ∈ runs, ∀ a ∈ run, ∀ c ∈ run,
      a.2.data_query_ref = c.2.data_query_ref)
    (hpw : List.Pairwise (fun r1 r2 => ∀ a ∈ r1, ∀ c ∈ r2,
      a.2.data_query_ref ≠ c.2.data_query_ref) runs) :
    getBestMatchPerQuery s sref = bestPerRuns st.higher_better sref runs := by
  have h1 : ((lookupRec s.score_types.items sref).map
      (fun t => t.higher_better)).getD false = st.higher_better := by
    rw [hst]
    rfl
  simp only [getBestMatchPerQuery]
  rw [h1, hitems]
  exact coreNone st.higher_better sref runs (0, false) rfl hsq hpw

/-- The spec's best-match example: one data query with three matches scoring
9, 95, 95 for score type 0 (`higher_better = true`). -/
def c5m1 : MoleculeQueryMatch := ⟨.pep 0, 0, [(0, 9)]⟩

/-- Second match of the best-match example (first score-95 match). -/
def c5m2 : MoleculeQueryMatch := ⟨.pep 0, 0, [(0, 95)]⟩

/-- Third match of the best-match example (second score-95 match). -/
def c5m3 : MoleculeQueryMatch := ⟨.pep 0, 0, [(0, 95)]⟩

/-- Store for the best-match example: score type 0, data query 0, three
query matches under handles 0, 1, 2. -/
def c5Store : Store :=
  { emptyStore with
      score_types := ⟨[(0, ⟨"score_a", true, none⟩)], 1⟩,
      data_queries := ⟨[(0, ⟨"query1", none⟩)], 1⟩,
      query_matches := ⟨[(0, c5m1), (1, c5m2), (2, c5m3)], 3⟩ }

/-- Witness for C5: on the spec's example (scores 9, 95, 95, higher is
better), the aggregator returns the first match attaining 95 — handle 1. -/
theorem getBestMatchPerQuery_runs_witness :
    lookupRec c5Store.score_types.items 0 =
      some ⟨"score_a", true, none⟩ ∧
    getBestMatchPerQuery c5Store 0 = [1] := by
  constructor
  · rfl
  · have h := getBestMatchPerQuery_runs c5Store 0 ⟨"score_a", true, none⟩
      [[(0, c5m1), (1, c5m2), (2, c5m3)]] rfl rfl
      (by decide) (by simp)
    rw [h]
    rfl

end IdData
